import Mathlib

/-!
Verification of the incremental scrape-queue core (`src/core/queue.py`).

A shallow embedding, in Lean 4, of the data model and operations of the
repository's incremental scraping queue:

* `VehicleFingerprint` with its `unique_key` and `fingerprint_hash`;
* `QueueItem` and its status transitions (`mark_in_progress`,
  `mark_completed`, `mark_failed`);
* `ScrapeQueue` operations `add`, `get_next`, `complete`, `fail` together
  with persistence (`_save_queue` / `_load_queue`), modelled as pure
  functions from a store (the `_items` dict, an association list keyed by
  `unique_key`) to a store plus the list of files written;
* `ChangeDetector.detect_changes` over a cached-offer index.

Python `datetime` instants are modelled as integers (`Int`), `timedelta`
thresholds likewise; `dict`s are insertion-ordered association lists; JSON
values are the inductive `JValue`.  `hashlib.md5` is implemented from
RFC 1321 over UTF-8 bytes.  Fallible operations return `Except`.
-/

namespace TAC

/-! ## JSON values (Python `Any` inside dicts) and `json.dumps` -/

/-- A JSON value: the content of Python dict entries (`Dict[str, Any]`)
the queue stores (`extra_attributes`, `vehicle_data`). `num` carries an
`Int` (Python's arbitrary-precision `int`). -/
inductive JValue where
  | null
  | jbool (b : Bool)
  | num (n : Int)
  | str (s : String)
  | arr (l : List JValue)
  | obj (l : List (String × JValue))

mutual

def decEqJ : (a b : JValue) → Decidable (a = b)
  | .null, .null => isTrue rfl
  | .jbool a, .jbool b =>
    if h : a = b then isTrue (by rw [h]) else isFalse (fun hh => h (by injection hh))
  | .num a, .num b =>
    if h : a = b then isTrue (by rw [h]) else isFalse (fun hh => h (by injection hh))
  | .str a, .str b =>
    if h : a = b then isTrue (by rw [h]) else isFalse (fun hh => h (by injection hh))
  | .arr a, .arr b =>
    match decEqJList a b with
    | isTrue h => isTrue (by rw [h])
    | isFalse h => isFalse (fun hh => h (by injection hh))
  | .obj a, .obj b =>
    match decEqJObj a b with
    | isTrue h => isTrue (by rw [h])
    | isFalse h => isFalse (fun hh => h (by injection hh))
  | .null, .jbool _ => isFalse (fun h => JValue.noConfusion h)
  | .null, .num _ => isFalse (fun h => JValue.noConfusion h)
  | .null, .str _ => isFalse (fun h => JValue.noConfusion h)
  | .null, .arr _ => isFalse (fun h => JValue.noConfusion h)
  | .null, .obj _ => isFalse (fun h => JValue.noConfusion h)
  | .jbool _, .null => isFalse (fun h => JValue.noConfusion h)
  | .jbool _, .num _ => isFalse (fun h => JValue.noConfusion h)
  | .jbool _, .str _ => isFalse (fun h => JValue.noConfusion h)
  | .jbool _, .arr _ => isFalse (fun h => JValue.noConfusion h)
  | .jbool _, .obj _ => isFalse (fun h => JValue.noConfusion h)
  | .num _, .null => isFalse (fun h => JValue.noConfusion h)
  | .num _, .jbool _ => isFalse (fun h => JValue.noConfusion h)
  | .num _, .str _ => isFalse (fun h => JValue.noConfusion h)
  | .num _, .arr _ => isFalse (fun h => JValue.noConfusion h)
  | .num _, .obj _ => isFalse (fun h => JValue.noConfusion h)
  | .str _, .null => isFalse (fun h => JValue.noConfusion h)
  | .str _, .jbool _ => isFalse (fun h => JValue.noConfusion h)
  | .str _, .num _ => isFalse (fun h => JValue.noConfusion h)
  | .str _, .arr _ => isFalse (fun h => JValue.noConfusion h)
  | .str _, .obj _ => isFalse (fun h => JValue.noConfusion h)
  | .arr _, .null => isFalse (fun h => JValue.noConfusion h)
  | .arr _, .jbool _ => isFalse (fun h => JValue.noConfusion h)
  | .arr _, .num _ => isFalse (fun h => JValue.noConfusion h)
  | .arr _, .str _ => isFalse (fun h => JValue.noConfusion h)
  | .arr _, .obj _ => isFalse (fun h => JValue.noConfusion h)
  | .obj _, .null => isFalse (fun h => JValue.noConfusion h)
  | .obj _, .jbool _ => isFalse (fun h => JValue.noConfusion h)
  | .obj _, .num _ => isFalse (fun h => JValue.noConfusion h)
  | .obj _, .str _ => isFalse (fun h => JValue.noConfusion h)
  | .obj _, .arr _ => isFalse (fun h => JValue.noConfusion h)

def decEqJList : (a b : List JValue) → Decidable (a = b)
  | [], [] => isTrue rfl
  | [], _ :: _ => isFalse (fun h => List.noConfusion h)
  | _ :: _, [] => isFalse (fun h => List.noConfusion h)
  | x :: xs, y :: ys =>
    match decEqJ x y with
    | isFalse h => isFalse (fun hh => h (by injection hh))
    | isTrue h1 =>
      match decEqJList xs ys with
      | isTrue h2 => isTrue (by rw [h1, h2])
      | isFalse h => isFalse (fun hh => h (by injection hh))

def decEqJObj : (a b : List (String × JValue)) → Decidable (a = b)
  | [], [] => isTrue rfl
  | [], _ :: _ => isFalse (fun h => List.noConfusion h)
  | _ :: _, [] => isFalse (fun h => List.noConfusion h)
  | (k1, v1) :: xs, (k2, v2) :: ys =>
    if hk : k1 = k2 then
      match decEqJ v1 v2 with
      | isFalse h => isFalse (fun hh => by
          injection hh with h1 h2
          exact h (congrArg Prod.snd h1))
      | isTrue h1 =>
        match decEqJObj xs ys with
        | isTrue h2 => isTrue (by rw [hk, h1, h2])
        | isFalse h => isFalse (fun hh => h (by injection hh))
    else
      isFalse (fun hh => by
        injection hh with h1 h2
        exact hk (congrArg Prod.fst h1))

end

instance : DecidableEq JValue := decEqJ

/-- One escaped character of a JSON string, as `json.dumps` renders it
(quote, backslash and the common control characters; other characters of the
repository's data pass through unchanged). -/
def escChar (c : Char) : List Char :=
  if c = '"' then ['\\', '"']
  else if c = '\\' then ['\\', '\\']
  else if c = '\n' then ['\\', 'n']
  else if c = '\t' then ['\\', 't']
  else if c = '\r' then ['\\', 'r']
  else [c]

/-- A JSON string literal: `"..."` with characters escaped. -/
def jstr (s : String) : String :=
  "\"" ++ String.mk (s.data.flatMap escChar) ++ "\""

/-- Key order on rendered dict entries. -/
def pairLe (a b : String × String) : Prop := a.1 ≤ b.1

instance : DecidableRel pairLe := fun a b => inferInstanceAs (Decidable (a.1 ≤ b.1))

instance : IsTotal (String × String) pairLe := ⟨fun a b => le_total a.1 b.1⟩

instance : IsTrans (String × String) pairLe := ⟨fun _ _ _ h1 h2 => le_trans h1 h2⟩

/-- Strict key order on rendered dict entries. -/
def pairLt (a b : String × String) : Prop := a.1 < b.1

instance : IsAntisymm (String × String) pairLt :=
  ⟨fun _ _ h1 h2 => absurd (lt_trans h1 h2) (lt_irrefl _)⟩

/-- `sort_keys=True` on a dict whose values are already rendered: entries
sorted by key.  Sorting the rendered pairs equals rendering the sorted
pairs, since the sort inspects keys only. -/
def sortPairs (l : List (String × String)) : List (String × String) :=
  List.insertionSort pairLe l

mutual

/-- `json.dumps(v, sort_keys=True)` with the default separators `", "` and
`": "`: every object's keys are sorted before rendering (here: each value
rendered, then the rendered entries sorted by key — the same string, as the
sort compares keys only). -/
def dumps : JValue → String
  | .null => "null"
  | .jbool true => "true"
  | .jbool false => "false"
  | .num n => toString n
  | .str s => jstr s
  | .arr l => "[" ++ String.intercalate ", " (dumpsList l) ++ "]"
  | .obj l => "\x7b" ++ String.intercalate ", "
      ((sortPairs (dumpsPairs l)).map fun kv => jstr kv.1 ++ ": " ++ kv.2) ++ "\x7d"

/-- The rendered elements of a JSON array. -/
def dumpsList : List JValue → List String
  | [] => []
  | v :: vs => dumps v :: dumpsList vs

/-- The entries of a JSON object with values rendered, keys untouched. -/
def dumpsPairs : List (String × JValue) → List (String × String)
  | [] => []
  | (k, v) :: ps => (k, dumps v) :: dumpsPairs ps

end

/-! ## MD5 (`hashlib.md5`, RFC 1321) over Nat arithmetic -/

/-- 32-bit truncation. -/
def m32 (n : Nat) : Nat := n % 4294967296

/-- Left-rotation of a 32-bit word. -/
def rotl32 (x s : Nat) : Nat :=
  m32 ((x <<< s) ||| (x >>> (32 - s)))

/-- The 64 MD5 sine-table constants `K[i] = floor(abs(sin(i+1)) * 2^32)`. -/
def md5K : List Nat :=
  [0xd76aa478, 0xe8c7b756, 0x242070db, 0xc1bdceee,
   0xf57c0faf, 0x4787c62a, 0xa8304613, 0xfd469501,
   0x698098d8, 0x8b44f7af, 0xffff5bb1, 0x895cd7be,
   0x6b901122, 0xfd987193, 0xa679438e, 0x49b40821,
   0xf61e2562, 0xc040b340, 0x265e5a51, 0xe9b6c7aa,
   0xd62f105d, 0x02441453, 0xd8a1e681, 0xe7d3fbc8,
   0x21e1cde6, 0xc33707d6, 0xf4d50d87, 0x455a14ed,
   0xa9e3e905, 0xfcefa3f8, 0x676f02d9, 0x8d2a4c8a,
   0xfffa3942, 0x8771f681, 0x6d9d6122, 0xfde5380c,
   0xa4beea44, 0x4bdecfa9, 0xf6bb4b60, 0xbebfbc70,
   0x289b7ec6, 0xeaa127fa, 0xd4ef3085, 0x04881d05,
   0xd9d4d039, 0xe6db99e5, 0x1fa27cf8, 0xc4ac5665,
   0xf4292244, 0x432aff97, 0xab9423a7, 0xfc93a039,
   0x655b59c3, 0x8f0ccc92, 0xffeff47d, 0x85845dd1,
   0x6fa87e4f, 0xfe2ce6e0, 0xa3014314, 0x4e0811a1,
   0xf7537e82, 0xbd3af235, 0x2ad7d2bb, 0xeb86d391]

/-- The per-round rotation amounts. -/
def md5S : List Nat :=
  [7, 12, 17, 22, 7, 12, 17, 22, 7, 12, 17, 22, 7, 12, 17, 22,
   5, 9, 14, 20, 5, 9, 14, 20, 5, 9, 14, 20, 5, 9, 14, 20,
   4, 11, 16, 23, 4, 11, 16, 23, 4, 11, 16, 23, 4, 11, 16, 23,
   6, 10, 15, 21, 6, 10, 15, 21, 6, 10, 15, 21, 6, 10, 15, 21]

/-- Bitwise complement of a 32-bit word. -/
def not32 (x : Nat) : Nat := 4294967295 - m32 x

/-- Little-endian bytes of `n`, `count` bytes long. -/
def leBytes (count n : Nat) : List Nat :=
  (List.range count).map fun i => (n >>> (8 * i)) % 256

/-- A little-endian 32-bit word read from bytes `chunk[4*i ..]`. -/
def leWord (chunk : List Nat) (i : Nat) : Nat :=
  chunk.getD (4 * i) 0 + 256 * chunk.getD (4 * i + 1) 0 +
    65536 * chunk.getD (4 * i + 2) 0 + 16777216 * chunk.getD (4 * i + 3) 0

/-- One of the 64 MD5 operations applied to state `(a, b, c, d)`. -/
def md5Step (chunk : List Nat) (st : Nat × Nat × Nat × Nat) (i : Nat) :
    Nat × Nat × Nat × Nat :=
  let (a, b, c, d) := st
  let f :=
    if i < 16 then (b &&& c) ||| (not32 b &&& d)
    else if i < 32 then (d &&& b) ||| (not32 d &&& c)
    else if i < 48 then b ^^^ c ^^^ d
    else c ^^^ (b ||| not32 d)
  let g :=
    if i < 16 then i
    else if i < 32 then (5 * i + 1) % 16
    else if i < 48 then (3 * i + 5) % 16
    else (7 * i) % 16
  let tmp := m32 (a + f + md5K.getD i 0 + leWord chunk g)
  let b2 := m32 (b + rotl32 tmp (md5S.getD i 0))
  (d, b2, b, c)

/-- Process one 64-byte chunk, updating the four-word state. -/
def md5Chunk (st : Nat × Nat × Nat × Nat) (chunk : List Nat) :
    Nat × Nat × Nat × Nat :=
  let (a0, b0, c0, d0) := st
  let (a, b, c, d) := (List.range 64).foldl (md5Step chunk) st
  (m32 (a0 + a), m32 (b0 + b), m32 (c0 + c), m32 (d0 + d))

/-- The 64-byte chunks of a padded message (fuel-driven: the padded
message's length bounds the number of chunks). -/
def chunksGo : Nat → List Nat → List (List Nat)
  | _, [] => []
  | 0, _ :: _ => []
  | fuel + 1, l@(_ :: _) => l.take 64 :: chunksGo fuel (l.drop 64)

/-- The 64-byte chunks of a padded message. -/
def chunks64 (l : List Nat) : List (List Nat) :=
  chunksGo l.length l

/-- MD5 padding: append `0x80`, zero bytes to 56 mod 64, then the
64-bit little-endian bit length. -/
def md5Pad (msg : List Nat) : List Nat :=
  msg ++ [0x80] ++ List.replicate ((55 - msg.length % 64) % 64) 0 ++
    leBytes 8 (8 * msg.length)

/-- The 16 digest bytes of MD5 over a byte message. -/
def md5Bytes (msg : List Nat) : List Nat :=
  let init : Nat × Nat × Nat × Nat :=
    (0x67452301, 0xefcdab89, 0x98badcfe, 0x10325476)
  let (a, b, c, d) := (chunks64 (md5Pad msg)).foldl md5Chunk init
  leBytes 4 a ++ leBytes 4 b ++ leBytes 4 c ++ leBytes 4 d

/-- UTF-8 encoding of one character (Python `str.encode()`). -/
def utf8Char (c : Char) : List Nat :=
  let n := c.toNat
  if n < 0x80 then [n]
  else if n < 0x800 then [0xc0 + n / 64, 0x80 + n % 64]
  else if n < 0x10000 then
    [0xe0 + n / 4096, 0x80 + (n / 64) % 64, 0x80 + n % 64]
  else
    [0xf0 + n / 262144, 0x80 + (n / 4096) % 64, 0x80 + (n / 64) % 64,
     0x80 + n % 64]

/-- UTF-8 bytes of a string. -/
def utf8Bytes (s : String) : List Nat := s.data.flatMap utf8Char

/-- One lowercase hex digit. -/
def hexChar (n : Nat) : Char :=
  if n < 10 then Char.ofNat (48 + n) else Char.ofNat (87 + n)

/-- `hashlib.md5(s.encode()).hexdigest()`: 32 lowercase hex characters. -/
def md5hex (s : String) : String :=
  String.mk ((md5Bytes (utf8Bytes s)).flatMap fun b => [hexChar (b / 16), hexChar (b % 16)])

/-! ## Vehicle fingerprints -/

/-- Python `s.lower()` (per character). -/
def pyLower (s : String) : String := ⟨s.data.map Char.toLower⟩

/-- Python `s.replace(' ', '-')`. -/
def pyDash (s : String) : String := ⟨s.data.map fun c => if c = ' ' then '-' else c⟩

/-- A Python dict (insertion-ordered, unique keys). -/
abbrev PyDict := List (String × JValue)

/-- `d.get(k, dflt)` for a string-valued entry.  The queue's identity fields
(`brand`, `model`, ...) are strings in every vehicle dict the scrapers
produce; a non-string value would be rejected by pydantic validation and is
mapped to the default here. -/
def getStr (d : PyDict) (k : String) (dflt : String) : String :=
  match d.find? (fun e => e.1 = k) with
  | some (_, .str s) => s
  | _ => dflt

/-- `VehicleFingerprint`: the lightweight identity captured from overview
scraping (`src/core/queue.py`, class `VehicleFingerprint`). -/
structure VehicleFingerprint where
  provider : String
  brand : String
  model : String
  edition_name : String := ""
  variant_slug : String := ""
  url : String := ""
  extra_attributes : PyDict := []
  deriving DecidableEq

namespace VehicleFingerprint

/-- `unique_key`: provider, lower-cased dash-joined brand/model/edition and
lower-cased variant, empty parts dropped (`'_'.join(filter(None, parts))`). -/
def unique_key (fp : VehicleFingerprint) : String :=
  let parts : List String :=
    [fp.provider,
     pyDash (pyLower fp.brand),
     pyDash (pyLower fp.model),
     if fp.edition_name ≠ "" then pyDash (pyLower fp.edition_name) else "",
     if fp.variant_slug ≠ "" then pyLower fp.variant_slug else ""]
  String.intercalate "_" (parts.filter (fun p => p ≠ ""))

/-- The string `json.dumps` serializes for `fingerprint_hash`:
`{'key': unique_key, 'url': url, 'extra': extra_attributes}` with
`sort_keys=True`; the three fixed top-level keys sort as
`extra < key < url`, written out here directly. -/
def hashInput (fp : VehicleFingerprint) : String :=
  "\x7b\"extra\": " ++ dumps (.obj fp.extra_attributes) ++
    ", \"key\": " ++ jstr fp.unique_key ++
    ", \"url\": " ++ jstr fp.url ++ "\x7d"

/-- `fingerprint_hash`: `hashlib.md5(hash_str.encode()).hexdigest()[:12]`. -/
def fingerprint_hash (fp : VehicleFingerprint) : String :=
  (md5hex fp.hashInput).take 12

end VehicleFingerprint

/-- `VehicleFingerprint.from_vehicle_dict`: build a fingerprint from a
scraper's vehicle dict, with field fallbacks and the remaining entries
collected into `extra_attributes` (insertion order preserved). -/
def from_vehicle_dict (vehicle : PyDict) (provider : String) : VehicleFingerprint :=
  { provider := provider
    brand := getStr vehicle "brand" ""
    model := getStr vehicle "model" (getStr vehicle "model_name" "")
    edition_name := getStr vehicle "edition_name" (getStr vehicle "edition" "")
    variant_slug := getStr vehicle "variant_slug" (getStr vehicle "edition_slug" "")
    url := getStr vehicle "url" (getStr vehicle "source_url" "")
    extra_attributes := vehicle.filter fun e =>
      e.1 ∉ ["brand", "model", "model_name", "edition_name", "edition",
             "variant_slug", "edition_slug", "url", "source_url"] }

/-! ## Queue items -/

/-- `Priority(int, Enum)`. -/
inductive Priority where
  | critical
  | high
  | normal
  | low
  deriving DecidableEq

/-- The numeric value of a priority (lower = more urgent). -/
def Priority.val : Priority → Nat
  | .critical => 1
  | .high => 2
  | .normal => 3
  | .low => 4

/-- `QueueItemStatus(str, Enum)`. -/
inductive QueueItemStatus where
  | pending
  | in_progress
  | completed
  | failed
  | skipped
  deriving DecidableEq

/-- `QueueItem`: a fingerprint plus the original vehicle dict and mutable
scheduling state.  `datetime` fields are integer instants. -/
structure QueueItem where
  fingerprint : VehicleFingerprint
  vehicle_data : PyDict
  priority : Priority := .normal
  status : QueueItemStatus := .pending
  added_at : Int
  started_at : Option Int := none
  completed_at : Option Int := none
  attempt_count : Nat := 0
  max_attempts : Nat := 3
  last_error : Option String := none
  reason : String := ""
  deriving DecidableEq

namespace QueueItem

def unique_key (it : QueueItem) : String := it.fingerprint.unique_key

/-- `mark_in_progress` at instant `now` (`datetime.utcnow()`). -/
def mark_in_progress (it : QueueItem) (now : Int) : QueueItem :=
  { it with status := .in_progress, started_at := some now,
            attempt_count := it.attempt_count + 1 }

/-- `mark_completed` at instant `now`. -/
def mark_completed (it : QueueItem) (now : Int) : QueueItem :=
  { it with status := .completed, completed_at := some now }

/-- `mark_failed`: record the error; terminal FAILED once
`attempt_count >= max_attempts`, otherwise back to PENDING. -/
def mark_failed (it : QueueItem) (error : String) : QueueItem :=
  { it with last_error := some error,
            status := if it.max_attempts ≤ it.attempt_count then .failed else .pending }

end QueueItem

/-! ## The queue store and persistence

`ScrapeQueue._items` is a dict `unique_key -> QueueItem`: an
insertion-ordered association list whose keys are unique.  Persistence
writes one JSON file per provider; a file is modelled by the provider name
paired with the list of items it holds (`model_dump`/`model_validate`
round-trip these records field-for-field). -/

/-- The in-memory store (`self._items`). -/
abbrev Store := List (String × QueueItem)

/-- The files a save writes: provider name, items in store order. -/
abbrev Files := List (String × List QueueItem)

/-- Dict lookup `d[k]` as an option. -/
def alookup (st : Store) (k : String) : Option QueueItem :=
  (st.find? (fun e => e.1 = k)).map Prod.snd

/-- Dict assignment on an existing key: replace that key's value. -/
def updateKey (st : Store) (k : String) (v : QueueItem) : Store :=
  st.map fun e => if e.1 = k then (k, v) else e

/-- Dict deletion `del d[k]` (the key's unique binding removed). -/
def eraseKey (st : Store) (k : String) : Store :=
  st.filter fun e => e.1 ≠ k

/-- Dict assignment `d[k] = v`: update in place when the key exists,
append otherwise. -/
def dictInsert (st : Store) (k : String) (v : QueueItem) : Store :=
  if (st.find? (fun e => e.1 = k)).isSome then updateKey st k v else st ++ [(k, v)]

/-- First-occurrence deduplication: the iteration order of the keys of a
dict built by repeated insertion (Python preserves first insertion). -/
def firstDedup (l : List String) : List String :=
  l.foldl (fun acc k => if k ∈ acc then acc else acc ++ [k]) []

/-- The provider filter of `_save_queue` (`if provider and prov != provider:
continue`, with a `None` filter keeping everything). -/
def provMatch (provider : Option String) (it : QueueItem) : Bool :=
  match provider with
  | none => true
  | some p => it.fingerprint.provider = p

/-- `_save_queue(provider)`: group the (optionally provider-filtered) items
by provider — first-occurrence provider order, items in store order, exactly
the dict-of-lists the Python loop builds — and write one file per provider
that has items. -/
def save_queue (st : Store) (provider : Option String) : Files :=
  let vals := (st.map Prod.snd).filter (provMatch provider)
  let provs := firstDedup (vals.map fun it => it.fingerprint.provider)
  provs.map fun p => (p, vals.filter fun it => it.fingerprint.provider = p)

/-- The `_load_queue` treatment of one stored item: keep it only when
PENDING or IN_PROGRESS, demoting IN_PROGRESS to PENDING (interrupted
session), keyed by `unique_key`. -/
def loadOne (st : Store) (it : QueueItem) : Store :=
  if it.status = .pending ∨ it.status = .in_progress then
    dictInsert st it.unique_key
      (if it.status = .in_progress then { it with status := .pending } else it)
  else st

/-- `_load_queue`: read every queue file, applying `loadOne` to each stored
item in file order. -/
def load_queue (files : Files) : Store :=
  files.foldl (fun st file => file.2.foldl loadOne st) []

/-- The dict entry a stored item contributes on load, when it contributes
one: its key with the (possibly demoted) item for PENDING/IN_PROGRESS
records, nothing for the rest. -/
def liveEntry (it : QueueItem) : Option (String × QueueItem) :=
  if it.status = .pending ∨ it.status = .in_progress then
    some (it.unique_key,
      if it.status = .in_progress then { it with status := .pending } else it)
  else none

/-! ## Queue operations -/

/-- The result of `ScrapeQueue.add`. -/
structure AddResult where
  item : QueueItem
  store : Store
  writes : Files

/-- `ScrapeQueue.add(vehicle, provider, priority, reason)` at instant `now`:
upsert by `unique_key`.  On an existing key, escalate priority (and replace
the reason) only when the new priority value is strictly lower, and return
without persisting; on a new key, insert a fresh PENDING item and persist
the provider's file. -/
def add (st : Store) (vehicle : PyDict) (provider : String) (priority : Priority)
    (reason : String) (now : Int) : AddResult :=
  let fp := from_vehicle_dict vehicle provider
  let key := fp.unique_key
  match alookup st key with
  | some existing =>
    let ex2 := if priority.val < existing.priority.val then
        { existing with priority := priority, reason := reason }
      else existing
    { item := ex2, store := updateKey st key ex2, writes := [] }
  | none =>
    let item : QueueItem :=
      { fingerprint := fp, vehicle_data := vehicle, priority := priority,
        status := .pending, added_at := now, reason := reason }
    let st2 := st ++ [(key, item)]
    { item := item, store := st2, writes := save_queue st2 (some provider) }

/-- The sort key of `pending.sort(key=lambda x: (x.priority.value, x.added_at))`:
tuples compare lexicographically. -/
def qle (a b : QueueItem) : Prop :=
  toLex (a.priority.val, a.added_at) ≤ toLex (b.priority.val, b.added_at)

instance : DecidableRel qle := fun a b =>
  inferInstanceAs (Decidable (toLex (a.priority.val, a.added_at) ≤ toLex (b.priority.val, b.added_at)))

instance : IsTotal QueueItem qle :=
  ⟨fun a b => le_total (toLex (a.priority.val, a.added_at)) (toLex (b.priority.val, b.added_at))⟩

instance : IsTrans QueueItem qle :=
  ⟨fun _ _ _ h1 h2 => le_trans h1 h2⟩

/-- Does an item pass the optional provider filter of `get_next`
(`provider is None or item.fingerprint.provider == provider`)? -/
def provOk (provider : Option String) (it : QueueItem) : Prop :=
  match provider with
  | none => True
  | some p => it.fingerprint.provider = p

instance : ∀ p it, Decidable (provOk p it) := fun p it =>
  match p with
  | none => inferInstanceAs (Decidable True)
  | some q => inferInstanceAs (Decidable (it.fingerprint.provider = q))

/-- The result of `ScrapeQueue.get_next`. -/
structure NextResult where
  next : Option QueueItem
  store : Store
  writes : Files

/-- `ScrapeQueue.get_next(provider)` at instant `now`: collect the PENDING
items passing the filter, sort by `(priority.value, added_at)`, mark the
first IN_PROGRESS and persist its provider's file; `None` (and no change)
when nothing is pending. -/
def get_next (st : Store) (provider : Option String) (now : Int) : NextResult :=
  let pending := (st.map Prod.snd).filter fun it =>
    it.status = .pending ∧ provOk provider it
  match List.insertionSort qle pending with
  | [] => { next := none, store := st, writes := [] }
  | it0 :: _ =>
    let marked := it0.mark_in_progress now
    let st2 := updateKey st it0.unique_key marked
    { next := some marked, store := st2,
      writes := save_queue st2 (some marked.fingerprint.provider) }

/-- `ScrapeQueue.complete(item)` at instant `now`: mark completed, then
`del self._items[item.unique_key]` — a `KeyError` when the key is not
live — and persist.  (The `mark_completed` mutation of the passed object
happens before the raise either way.) -/
def complete (st : Store) (it : QueueItem) (now : Int) :
    Except String (Store × Files) :=
  let _marked := it.mark_completed now
  match alookup st it.unique_key with
  | none => .error "KeyError"
  | some _ =>
    let st2 := eraseKey st it.unique_key
    .ok (st2, save_queue st2 (some it.fingerprint.provider))

/-- The result of `ScrapeQueue.fail`. -/
structure FailResult where
  item : QueueItem
  store : Store
  writes : Files

/-- `ScrapeQueue.fail(item, error)`: `mark_failed` the item (the object in
the store is the one the driver holds) and persist its provider's file. -/
def fail (st : Store) (it : QueueItem) (error : String) : FailResult :=
  let it2 := it.mark_failed error
  let st2 := updateKey st it.unique_key it2
  { item := it2, store := st2, writes := save_queue st2 (some it.fingerprint.provider) }

/-! ## Change detection -/

/-- The `scraped_at` field of a cached offer, as `_get_scraped_at` sees it:
absent or falsy (`None`, `''`, `0`), a parseable ISO string (carrying the
instant `datetime.fromisoformat` yields), a string `fromisoformat` rejects,
a `datetime` instance, or some other truthy non-string value. -/
inductive ScrapedRaw where
  | missing
  | falsy
  | strParsed (t : Int)
  | strUnparsable
  | dtVal (t : Int)
  | truthyOther
  deriving DecidableEq

/-- `ChangeDetector._get_scraped_at`: the parsed timestamp, or `None` when
the field is missing, falsy, unparsable or not a string/datetime. -/
def get_scraped_at : ScrapedRaw → Option Int
  | .strParsed t => some t
  | .dtVal t => some t
  | _ => none

/-- One cached-offer index entry (`_load_cached_offers` value): the
fingerprint rebuilt from the cached offer, and the offer's `scraped_at`
field (the only part of the opaque offer `detect_changes` reads). -/
structure CacheEntry where
  fingerprint : VehicleFingerprint
  scraped : ScrapedRaw
  deriving DecidableEq

/-- The cached index `unique_key -> entry` (a dict: insertion-ordered,
unique keys). -/
abbrev Cache := List (String × CacheEntry)

/-- Cache lookup. -/
def clookup (cache : Cache) (k : String) : Option CacheEntry :=
  (cache.find? (fun e => e.1 = k)).map Prod.snd

/-- Is a cached entry stale at instant `now`?  The staleness test of
`detect_changes`: `scraped_at and (now - scraped_at) > freshness_threshold`.
An entry whose timestamp did not parse yields `false` (the truthiness test
fails), so it is NOT counted stale. -/
def staleAt (thr now : Int) (e : CacheEntry) : Bool :=
  match get_scraped_at e.scraped with
  | some ts => decide (now - ts > thr)
  | none => false

/-- `ChangeDetectionResult`. -/
structure ChangeDetectionResult where
  provider : String
  detected_at : Int
  new_vehicles : List VehicleFingerprint := []
  changed_vehicles : List VehicleFingerprint := []
  stale_vehicles : List VehicleFingerprint := []
  removed_vehicles : List VehicleFingerprint := []
  unchanged_vehicles : List VehicleFingerprint := []
  deriving DecidableEq

/-- `needs_scraping = new + changed + stale`. -/
def ChangeDetectionResult.needs_scraping (r : ChangeDetectionResult) :
    List VehicleFingerprint :=
  r.new_vehicles ++ r.changed_vehicles ++ r.stale_vehicles

/-- The brand filter applied to an overview vehicle dict:
`if brand and vehicle.get('brand', '').lower() != brand.lower(): continue`
(a `None` or empty `brand` filters nothing). -/
def brandKeep (brand : Option String) (v : PyDict) : Bool :=
  match brand with
  | none => true
  | some b => b = "" ∨ pyLower (getStr v "brand" "") = pyLower b

/-- The brand filter applied to a cached fingerprint in the removed-set
loop: `if brand and cached_fp.brand.lower() != brand.lower(): continue`. -/
def brandKeepFP (brand : Option String) (fp : VehicleFingerprint) : Bool :=
  match brand with
  | none => true
  | some b => b = "" ∨ pyLower fp.brand = pyLower b

/-- The category `detect_changes` assigns to one overview fingerprint. -/
inductive Category where
  | isNew
  | isChanged
  | isStale
  | isUnchanged

/-- The categorization step of `detect_changes` for one overview
fingerprint: new when its key is uncached; changed when the fingerprint
hash differs from the cached one; else stale or unchanged by the staleness
test at `now`. -/
def categorize (cache : Cache) (thr now : Int) (fp : VehicleFingerprint) : Category :=
  match clookup cache fp.unique_key with
  | none => .isNew
  | some entry =>
    if fp.fingerprint_hash ≠ entry.fingerprint.fingerprint_hash then .isChanged
    else if staleAt thr now entry then .isStale
    else .isUnchanged

/-- Append one categorized fingerprint to its bucket. -/
def pushBucket (r : ChangeDetectionResult) (fp : VehicleFingerprint) :
    Category → ChangeDetectionResult
  | .isNew => { r with new_vehicles := r.new_vehicles ++ [fp] }
  | .isChanged => { r with changed_vehicles := r.changed_vehicles ++ [fp] }
  | .isStale => { r with stale_vehicles := r.stale_vehicles ++ [fp] }
  | .isUnchanged => { r with unchanged_vehicles := r.unchanged_vehicles ++ [fp] }

/-- `ChangeDetector.detect_changes(overview_vehicles, provider, brand)` with
cached index `cache`, freshness threshold `thr` and `datetime.utcnow() = now`:
fingerprint the brand-filtered overview, iterate the distinct keys (first
occurrence order; `overview_by_key` keeps the last fingerprint per key),
categorize each against the cache, then append every cached key not seen in
the overview (cache order, brand-filtered) to `removed`. -/
def detect_changes (overview : List PyDict) (provider : String)
    (brand : Option String) (cache : Cache) (thr now : Int) :
    ChangeDetectionResult :=
  let fps := (overview.filter (brandKeep brand)).map (from_vehicle_dict · provider)
  let keys := firstDedup (fps.map (·.unique_key))
  let lastFP : String → Option VehicleFingerprint := fun k =>
    fps.reverse.find? fun fp => fp.unique_key = k
  let init : ChangeDetectionResult := { provider := provider, detected_at := now }
  let r := keys.foldl
    (fun r k =>
      match lastFP k with
      | none => r
      | some fp => pushBucket r fp (categorize cache thr now fp))
    init
  cache.foldl
    (fun r e =>
      if e.1 ∉ keys ∧ brandKeepFP brand e.2.fingerprint then
        { r with removed_vehicles := r.removed_vehicles ++ [e.2.fingerprint] }
      else r)
    r

/-! ## Driver-loop and pigeonhole helpers, concrete fixtures -/

/-- One failing driver cycle: `get_next()` and, when an item was handed
out, `fail` it with message `err`. -/
def stepFail (err : String) (now : Int) (st : Store) : Store :=
  match get_next st none now with
  | { next := some it, store := st2, writes := _ } => (fail st2 it err).store
  | { next := none, store := st2, writes := _ } => st2

/-- `n` failing driver cycles. -/
def failCycles (err : String) (now : Int) : Nat → Store → Store
  | 0, st => st
  | n + 1, st => failCycles err now n (stepFail err now st)

/-- A family of fingerprints equal in every field `fingerprint_hash` reads
except the value of the one extra attribute `n`. -/
def fpN (n : Nat) : VehicleFingerprint :=
  { provider := "p", brand := "b", model := "m",
    extra_attributes := [("n", .num (n : Int))] }

/-- An injective base-1114113 encoding of strings (each character is the
digit `toNat + 1`, in `1 .. 1114112`). -/
def encodeStr (s : String) : Nat :=
  s.data.foldr (fun c acc => acc * 1114113 + (c.toNat + 1)) 0

/-- A concrete overview vehicle dict. -/
def wVehicle : PyDict :=
  [("brand", .str "Toyota"), ("model", .str "Yaris"),
   ("edition_name", .str "Active"), ("price", .num 300)]

/-- Its fingerprint under provider `toyota_nl`. -/
def wFP : VehicleFingerprint := from_vehicle_dict wVehicle "toyota_nl"

/-- A fresh queue item for it (PENDING, zero attempts, defaults). -/
def wItem : QueueItem :=
  { fingerprint := wFP, vehicle_data := wVehicle, added_at := 0 }

/-- A one-item store holding it. -/
def wStore : Store := [(wFP.unique_key, wItem)]

/-- A cache entry for the same vehicle whose `scraped_at` parses to
instant 0. -/
def wCacheParsed : Cache := [(wFP.unique_key, ⟨wFP, .strParsed 0⟩)]

/-- A second provider's vehicle, item and fingerprints for round-trip
fixtures. -/
def wVehicle2 : PyDict := [("brand", .str "Suzuki"), ("model", .str "Swift")]

/-- Its fingerprint under provider `ayvens_nl`. -/
def wFP2 : VehicleFingerprint := from_vehicle_dict wVehicle2 "ayvens_nl"

/-- A mixed-status store over two providers: an IN_PROGRESS item and a
FAILED item. -/
def wStoreMixed : Store :=
  [(wFP.unique_key,
    { fingerprint := wFP, vehicle_data := wVehicle, added_at := 0,
      status := .in_progress, attempt_count := 2, started_at := some 1 }),
   (wFP2.unique_key,
    { fingerprint := wFP2, vehicle_data := wVehicle2, added_at := 3,
      status := .failed, attempt_count := 3, last_error := some "boom" })]

/-! ## Store lemmas -/

theorem alookup_cons (k1 : String) (v : QueueItem) (st : Store) (k : String) :
    alookup ((k1, v) :: st) k = if k1 = k then some v else alookup st k := by
  simp only [alookup, List.find?_cons]
  by_cases h : k1 = k <;> simp [h]

theorem alookup_eq_none_iff {st : Store} {k : String} :
    alookup st k = none ↔ ∀ e ∈ st, e.1 ≠ k := by
  simp [alookup, List.find?_eq_none]

theorem alookup_eq_some_iff {st : Store} (h : (st.map Prod.fst).Nodup)
    {k : String} {v : QueueItem} :
    alookup st k = some v ↔ (k, v) ∈ st := by
  constructor
  · intro hv
    obtain ⟨e, he, hmap⟩ : ∃ e, st.find? (fun e => e.1 = k) = some e ∧ e.2 = v := by
      unfold alookup at hv
      cases hfind : st.find? (fun e => e.1 = k) with
      | none => rw [hfind] at hv; simp at hv
      | some e => rw [hfind] at hv; exact ⟨e, rfl, by simpa using hv⟩
    have hmem := List.mem_of_find?_eq_some he
    have hk : e.1 = k := by simpa using List.find?_some he
    have : e = (k, v) := by rw [← hk, ← hmap]
    rwa [this] at hmem
  · intro hmem
    cases hfind : st.find? (fun e => e.1 = k) with
    | none =>
      rw [List.find?_eq_none] at hfind
      exact absurd (by simp : decide ((k, v).1 = k) = true) (hfind _ hmem)
    | some e =>
      have hk : e.1 = k := by simpa using List.find?_some hfind
      have hein := List.mem_of_find?_eq_some hfind
      have : e = (k, v) := by
        have := List.inj_on_of_nodup_map h hein hmem (by simp [hk])
        exact this
      simp [alookup, hfind, this]

theorem alookup_updateKey_self (st : Store) (k : String) (v : QueueItem) :
    alookup (updateKey st k v) k = (alookup st k).map (fun _ => v) := by
  induction st with
  | nil => rfl
  | cons e st ih =>
    obtain ⟨k1, v1⟩ := e
    by_cases h : k1 = k
    · simp [updateKey, alookup_cons, h]
    · simpa [updateKey, alookup_cons, h] using ih

theorem alookup_eraseKey_self (st : Store) (k : String) :
    alookup (eraseKey st k) k = none := by
  rw [alookup_eq_none_iff]
  intro e he
  have := List.mem_filter.mp he
  simpa using this.2

theorem foldl_dedup_mem :
    ∀ (l acc : List String) (a : String),
      (a ∈ l.foldl (fun acc k => if k ∈ acc then acc else acc ++ [k]) acc ↔
        a ∈ acc ∨ a ∈ l)
  | [], acc, a => by simp
  | k :: l, acc, a => by
    simp only [List.foldl_cons]
    by_cases hk : k ∈ acc
    · rw [if_pos hk, foldl_dedup_mem l acc a]
      constructor
      · rintro (h | h)
        · exact Or.inl h
        · exact Or.inr (List.mem_cons_of_mem _ h)
      · rintro (h | h)
        · exact Or.inl h
        · rcases List.mem_cons.mp h with rfl | h
          · exact Or.inl hk
          · exact Or.inr h
    · rw [if_neg hk, foldl_dedup_mem l (acc ++ [k]) a]
      simp [List.mem_cons, or_assoc]

theorem foldl_dedup_nodup :
    ∀ (l acc : List String), acc.Nodup →
      (l.foldl (fun acc k => if k ∈ acc then acc else acc ++ [k]) acc).Nodup
  | [], _, h => h
  | k :: l, acc, h => by
    simp only [List.foldl_cons]
    by_cases hk : k ∈ acc
    · rw [if_pos hk]; exact foldl_dedup_nodup l acc h
    · rw [if_neg hk]
      refine foldl_dedup_nodup l (acc ++ [k]) ?_
      refine h.append (List.nodup_singleton k) ?_
      intro a ha hb
      rcases List.mem_singleton.mp hb with rfl
      exact hk ha

theorem mem_firstDedup {a : String} {l : List String} :
    a ∈ firstDedup l ↔ a ∈ l := by
  simpa [firstDedup] using foldl_dedup_mem l [] a

theorem nodup_firstDedup (l : List String) : (firstDedup l).Nodup :=
  foldl_dedup_nodup l [] List.nodup_nil

/-! ## Claims C5, C9, C10, C6 -/

/-- Claim C5, counterexample: the two fingerprints
`(p, b, m, edition "x", variant "")` and `(p, b, m, edition "", variant "x")`
differ in `edition_name` (and in `variant_slug`), yet their `unique_key`s
coincide — empty parts are dropped by `'_'.join(filter(None, parts))` before
joining, so the claim's injectivity half is false. -/
theorem c5_counterexample :
    VehicleFingerprint.unique_key ⟨"p", "b", "m", "x", "", "", []⟩ =
      VehicleFingerprint.unique_key ⟨"p", "b", "m", "", "x", "", []⟩ ∧
    (⟨"p", "b", "m", "x", "", "", []⟩ : VehicleFingerprint).edition_name ≠
      (⟨"p", "b", "m", "", "x", "", []⟩ : VehicleFingerprint).edition_name ∧
    (⟨"p", "b", "m", "x", "", "", []⟩ : VehicleFingerprint).variant_slug ≠
      (⟨"p", "b", "m", "", "x", "", []⟩ : VehicleFingerprint).variant_slug := by
  refine ⟨rfl, ?_, ?_⟩ <;> decide

/-- Claim C5 (amended): `unique_key` is a function of exactly
`(provider, brand, model, edition_name, variant_slug)` — fingerprints equal
on those five fields (the URL and extra attributes may differ) have equal
keys; distinct five-field values, however, may collide. -/
theorem c5_amended (fp1 fp2 : VehicleFingerprint)
    (h1 : fp1.provider = fp2.provider) (h2 : fp1.brand = fp2.brand)
    (h3 : fp1.model = fp2.model) (h4 : fp1.edition_name = fp2.edition_name)
    (h5 : fp1.variant_slug = fp2.variant_slug) :
    fp1.unique_key = fp2.unique_key := by
  unfold VehicleFingerprint.unique_key
  rw [h1, h2, h3, h4, h5]

/-- Claim C5, witness: two fingerprints equal on the five key fields but
with different URLs and extra attributes share their `unique_key`. -/
theorem c5_amended_witness :
    VehicleFingerprint.unique_key
        ⟨"p", "b", "m", "e", "v", "http://a", [("x", .num 1)]⟩ =
      VehicleFingerprint.unique_key ⟨"p", "b", "m", "e", "v", "http://b", []⟩ :=
  c5_amended _ _ rfl rfl rfl rfl rfl

/-- Claim C9: `complete(item)` raises `KeyError` whenever no live item with
the item's `unique_key` is in the store — in particular on a second
`complete` of the same item — instead of being a no-op; it succeeds only
under the precondition that the key is live. -/
theorem c9_complete_keyerror (st : Store) (it : QueueItem) (t1 t2 : Int) :
    (alookup st it.unique_key = none → complete st it t1 = .error "KeyError") ∧
    (∀ st2 w, complete st it t1 = .ok (st2, w) →
      complete st2 it t2 = .error "KeyError") := by
  constructor
  · intro h
    unfold complete
    rw [h]
  · intro st2 w hok
    unfold complete at hok ⊢
    cases hlk : alookup st it.unique_key with
    | none => rw [hlk] at hok; exact absurd hok (by simp)
    | some x =>
      rw [hlk] at hok
      have hst2 : st2 = eraseKey st it.unique_key := by
        injection hok with h1
        exact (congrArg Prod.fst h1).symm
      rw [hst2, alookup_eraseKey_self]

/-- Claim C10: `add` on an already-queued `unique_key` leaves the stored
item's fingerprint, payload, status, attempt bookkeeping and timestamps
untouched (the new payload is discarded); only `priority` and `reason`
change, and only when the new priority value is strictly lower. -/
theorem c10_add_existing_frame (st : Store) (v : PyDict) (provider : String)
    (pr : Priority) (rsn : String) (now : Int) (existing : QueueItem)
    (h : alookup st (from_vehicle_dict v provider).unique_key = some existing) :
    ∃ it2,
      alookup (add st v provider pr rsn now).store
          (from_vehicle_dict v provider).unique_key = some it2 ∧
      it2.fingerprint = existing.fingerprint ∧
      it2.vehicle_data = existing.vehicle_data ∧
      it2.status = existing.status ∧
      it2.attempt_count = existing.attempt_count ∧
      it2.added_at = existing.added_at ∧
      it2.started_at = existing.started_at ∧
      it2.completed_at = existing.completed_at ∧
      it2.max_attempts = existing.max_attempts ∧
      it2.last_error = existing.last_error ∧
      (pr.val < existing.priority.val → it2.priority = pr ∧ it2.reason = rsn) ∧
      (¬pr.val < existing.priority.val →
        it2.priority = existing.priority ∧ it2.reason = existing.reason) := by
  simp only [add, h]
  refine ⟨if pr.val < existing.priority.val then
      { existing with priority := pr, reason := rsn } else existing, ?_, ?_⟩
  · rw [alookup_updateKey_self, h]
    rfl
  · by_cases hlt : pr.val < existing.priority.val <;>
      simp [hlt]

/-- Claim C10, witness: re-adding `wVehicle` with CRITICAL priority over the
NORMAL-priority `wItem` keeps every frame field and escalates the
priority. -/
theorem c10_add_existing_frame_witness :
    ∃ it2,
      alookup (add wStore wVehicle "toyota_nl" .critical "again" 5).store
          (from_vehicle_dict wVehicle "toyota_nl").unique_key = some it2 ∧
      it2.fingerprint = wItem.fingerprint ∧
      it2.vehicle_data = wItem.vehicle_data ∧
      it2.status = wItem.status ∧
      it2.attempt_count = wItem.attempt_count ∧
      it2.added_at = wItem.added_at ∧
      it2.started_at = wItem.started_at ∧
      it2.completed_at = wItem.completed_at ∧
      it2.max_attempts = wItem.max_attempts ∧
      it2.last_error = wItem.last_error ∧
      (Priority.critical.val < wItem.priority.val →
        it2.priority = .critical ∧ it2.reason = "again") ∧
      (¬Priority.critical.val < wItem.priority.val →
        it2.priority = wItem.priority ∧ it2.reason = wItem.reason) :=
  c10_add_existing_frame wStore wVehicle "toyota_nl" .critical "again" 5 wItem rfl

/-- Claim C6, counterexample: on the concrete one-item store `wStore`,
re-adding the same vehicle with CRITICAL priority escalates the stored
priority in memory but performs no write at all — `add` does NOT persist in
the existing-key case, contradicting "always persists". -/
theorem c6_counterexample :
    (add wStore wVehicle "toyota_nl" .critical "changed" 5).writes = [] ∧
    (alookup (add wStore wVehicle "toyota_nl" .critical "changed" 5).store
        wFP.unique_key).map (fun it => it.priority) = some .critical ∧
    (alookup wStore wFP.unique_key).map (fun it => it.priority) = some .normal := by
  refine ⟨rfl, ?_, rfl⟩
  rfl

/-- A save filtered to the provider of an item the store holds writes at
least one file. -/
theorem save_queue_append_ne_nil (st : Store) (k : String) (it : QueueItem)
    (p : String) (hp : it.fingerprint.provider = p) :
    save_queue (st ++ [(k, it)]) (some p) ≠ [] := by
  unfold save_queue
  intro hnil
  rw [List.map_eq_nil_iff] at hnil
  have hmemv : it ∈ ((st ++ [(k, it)]).map Prod.snd).filter (provMatch (some p)) := by
    rw [List.mem_filter]
    exact ⟨by simp, by simp [provMatch, hp]⟩
  have hprovmem : it.fingerprint.provider ∈ firstDedup
      ((((st ++ [(k, it)]).map Prod.snd).filter (provMatch (some p))).map
        fun x => x.fingerprint.provider) := by
    rw [mem_firstDedup]
    exact List.mem_map.mpr ⟨it, hmemv, rfl⟩
  rw [hnil] at hprovmem
  exact absurd hprovmem (List.not_mem_nil _)

/-- Claim C6 (amended): `add` persists the queue before returning exactly
when the payload's `unique_key` is new; when the key already exists —
including when the priority is escalated — it returns without writing
anything. -/
theorem c6_amended (st : Store) (v : PyDict) (provider : String)
    (pr : Priority) (rsn : String) (now : Int) :
    (add st v provider pr rsn now).writes = [] ↔
      (alookup st (from_vehicle_dict v provider).unique_key).isSome := by
  cases hlk : alookup st (from_vehicle_dict v provider).unique_key with
  | some existing => simp [add, hlk]
  | none =>
    simp only [add, hlk, Option.isSome_none, Bool.false_eq_true, iff_false]
    exact save_queue_append_ne_nil st _ _ provider rfl

/-! ## Claim C1 -/

/-- Claim C1: `get_next` is deterministic (a function of the state): when no
PENDING item passes the provider filter it returns `None` and leaves the
store unchanged; otherwise it returns an item that was PENDING and passed
the filter, minimal by priority value with ties broken by earliest
`added_at`, marked IN_PROGRESS with its `attempt_count` incremented, and
the store holds the updated item under its key. -/
theorem c1_get_next_spec (st : Store) (provider : Option String) (now : Int) :
    ((get_next st provider now).next = none →
      (get_next st provider now).store = st ∧
      ∀ x ∈ st.map Prod.snd, ¬(x.status = .pending ∧ provOk provider x)) ∧
    (∀ it, (get_next st provider now).next = some it →
      ∃ it0, it0 ∈ st.map Prod.snd ∧ it0.status = .pending ∧ provOk provider it0 ∧
        (∀ x ∈ st.map Prod.snd, x.status = .pending → provOk provider x →
          it0.priority.val < x.priority.val ∨
            (it0.priority.val = x.priority.val ∧ it0.added_at ≤ x.added_at)) ∧
        it = it0.mark_in_progress now ∧
        it.status = .in_progress ∧
        it.attempt_count = it0.attempt_count + 1 ∧
        (get_next st provider now).store = updateKey st it0.unique_key it) := by
  simp only [get_next]
  split
  case _ heq =>
    constructor
    · intro _
      refine ⟨rfl, ?_⟩
      have hsp := List.perm_insertionSort qle
        ((st.map Prod.snd).filter
          (fun it => it.status = .pending ∧ provOk provider it))
      rw [heq] at hsp
      have hpend : (st.map Prod.snd).filter
          (fun it => it.status = .pending ∧ provOk provider it) = [] :=
        hsp.symm.eq_nil
      intro x hx
      have := List.filter_eq_nil_iff.mp hpend x hx
      simpa using this
    · intro it h
      exact absurd h (by simp)
  case _ it0 rest heq =>
    constructor
    · intro h
      exact absurd h (by simp)
    · intro it h
      have hit : it = it0.mark_in_progress now := by
        simpa using h.symm
      have hsortmem : it0 ∈ List.insertionSort qle
          ((st.map Prod.snd).filter
            (fun x => x.status = .pending ∧ provOk provider x)) := by
        rw [heq]; exact List.mem_cons_self _ _
      have hpendmem := (List.perm_insertionSort qle _).mem_iff.mp hsortmem
      have hmf := List.mem_filter.mp hpendmem
      have hP : it0.status = .pending ∧ provOk provider it0 := by
        simpa using hmf.2
      refine ⟨it0, hmf.1, hP.1, hP.2, ?_, hit, ?_, ?_, ?_⟩
      · intro x hx hxs hxp
        have hxpend : x ∈ (st.map Prod.snd).filter
            (fun y => y.status = .pending ∧ provOk provider y) :=
          List.mem_filter.mpr ⟨hx, by simpa using And.intro hxs hxp⟩
        have hxsort := (List.perm_insertionSort qle _).mem_iff.mpr hxpend
        rw [heq] at hxsort
        have hqle : qle it0 x := by
          rcases List.mem_cons.mp hxsort with rfl | hxrest
          · exact le_refl _
          · have hsorted := List.sorted_insertionSort qle
              ((st.map Prod.snd).filter
                (fun y => y.status = .pending ∧ provOk provider y))
            rw [heq] at hsorted
            exact List.rel_of_sorted_cons hsorted x hxrest
        have := (Prod.Lex.le_iff (it0.priority.val, it0.added_at)
          (x.priority.val, x.added_at)).mp hqle
        simpa using this
      · rw [hit]; rfl
      · rw [hit]; rfl
      · rw [hit]

/-! ## Claim C4 -/

theorem failCycles_succ (err : String) (now : Int) :
    ∀ (n : Nat) (st : Store),
      failCycles err now (n + 1) st = stepFail err now (failCycles err now n st)
  | 0, _ => rfl
  | n + 1, st => by
    show failCycles err now (n + 1) (stepFail err now st) =
      stepFail err now (failCycles err now (n + 1) st)
    rw [failCycles_succ err now n (stepFail err now st)]
    rfl

/-- One `get_next`-then-`fail` cycle on a one-item store holding a PENDING
item: the item gains an attempt, records the error, and lands on FAILED or
PENDING by the `max_attempts` test. -/
theorem stepFail_single (it : QueueItem) (err : String) (now : Int)
    (hs : it.status = .pending) :
    stepFail err now [(it.unique_key, it)] =
      [(it.unique_key,
        { it with
            status := if it.max_attempts ≤ it.attempt_count + 1 then .failed
              else .pending,
            started_at := some now,
            attempt_count := it.attempt_count + 1,
            last_error := some err })] := by
  simp [stepFail, get_next, fail, QueueItem.mark_in_progress, QueueItem.mark_failed,
    updateKey, QueueItem.unique_key, List.insertionSort, List.orderedInsert,
    hs, provOk, List.filter_cons]

theorem c4_aux (it : QueueItem) (err : String) (now : Int) (m : Nat)
    (hs : it.status = .pending) (ha : it.attempt_count = 0)
    (hm : it.max_attempts = m) :
    ∀ j, j ≤ m →
      ∃ itj, failCycles err now j [(it.unique_key, it)] = [(it.unique_key, itj)] ∧
        itj.fingerprint = it.fingerprint ∧
        itj.max_attempts = m ∧
        itj.attempt_count = j ∧
        (j < m → itj.status = .pending) ∧
        (j = m → 1 ≤ m → itj.status = .failed ∧ itj.last_error = some err) := by
  intro j
  induction j with
  | zero =>
    intro _
    exact ⟨it, rfl, rfl, hm, ha, fun _ => hs, fun hz ho => by omega⟩
  | succ j ih =>
    intro hj1
    obtain ⟨itj, hrec, hfp, hmax, hatt, hpend, _⟩ := ih (by omega)
    have hjs : itj.status = .pending := hpend (by omega)
    have hkey : it.unique_key = itj.unique_key := by
      simp [QueueItem.unique_key, hfp]
    rw [failCycles_succ, hrec, hkey, stepFail_single itj err now hjs, ← hkey]
    refine ⟨_, rfl, hfp, hmax, by simp [hatt], ?_, ?_⟩
    · intro hlt
      simp only [hmax, hatt]
      rw [if_neg (by omega)]
    · intro hje _
      simp only [hmax, hatt]
      rw [if_pos (by omega)]
      exact ⟨rfl, trivial⟩

/-- `get_next` hands out nothing from a one-item store whose item is not
PENDING. -/
theorem get_next_single_not_pending (k : String) (x : QueueItem) (now : Int)
    (hx : x.status ≠ .pending) :
    (get_next [(k, x)] none now).next = none := by
  simp [get_next, provOk, List.filter_cons, hx]

/-- Claim C4: `fail(item, message)` always records the message in
`last_error` and moves the item to terminal FAILED exactly when
`attempt_count >= max_attempts` at that moment, otherwise back to PENDING;
driving a fresh item through `get_next`/`fail` cycles on its own queue
leaves it PENDING with `attempt_count = j` after every cycle `j <
max_attempts`, turns it FAILED (with the message recorded) exactly on the
final, `max_attempts`-th cycle, and a FAILED item is never returned by a
subsequent `get_next`. -/
theorem c4_fail_retry_exhaustion (it : QueueItem) (err : String) (now : Int)
    (m : Nat) (hs : it.status = .pending) (ha : it.attempt_count = 0)
    (hm : it.max_attempts = m) (hm1 : 1 ≤ m) :
    (∀ (st : Store) (x : QueueItem),
      (fail st x err).item.last_error = some err ∧
      (fail st x err).item.status =
        (if x.max_attempts ≤ x.attempt_count then .failed else .pending)) ∧
    (∀ j, j < m → ∃ itj,
      failCycles err now j [(it.unique_key, it)] = [(it.unique_key, itj)] ∧
      itj.status = .pending ∧ itj.attempt_count = j) ∧
    (∃ itF, failCycles err now m [(it.unique_key, it)] = [(it.unique_key, itF)] ∧
      itF.status = .failed ∧ itF.attempt_count = m ∧ itF.last_error = some err) ∧
    (get_next (failCycles err now m [(it.unique_key, it)]) none now).next = none := by
  have haux := c4_aux it err now m hs ha hm
  refine ⟨?_, ?_, ?_, ?_⟩
  · intro st x
    exact ⟨rfl, rfl⟩
  · intro j hj
    obtain ⟨itj, hrec, _, _, hatt, hpend, _⟩ := haux j (le_of_lt hj)
    exact ⟨itj, hrec, hpend hj, hatt⟩
  · obtain ⟨itF, hrec, _, _, hatt, _, hfail⟩ := haux m le_rfl
    obtain ⟨hstat, herr⟩ := hfail rfl hm1
    exact ⟨itF, hrec, hstat, hatt, herr⟩
  · obtain ⟨itF, hrec, _, _, _, _, hfail⟩ := haux m le_rfl
    obtain ⟨hstat, _⟩ := hfail rfl hm1
    rw [hrec]
    exact get_next_single_not_pending _ _ _ (by rw [hstat]; intro h; cases h)

/-- Claim C4, witness: the fresh `wItem` (PENDING, zero attempts,
`max_attempts = 3`) fails terminally on the third cycle. -/
theorem c4_fail_retry_exhaustion_witness :
    (∀ (st : Store) (x : QueueItem),
      (fail st x "boom").item.last_error = some "boom" ∧
      (fail st x "boom").item.status =
        (if x.max_attempts ≤ x.attempt_count then .failed else .pending)) ∧
    (∀ j, j < 3 → ∃ itj,
      failCycles "boom" 9 j [(wItem.unique_key, wItem)] = [(wItem.unique_key, itj)] ∧
      itj.status = .pending ∧ itj.attempt_count = j) ∧
    (∃ itF, failCycles "boom" 9 3 [(wItem.unique_key, wItem)] = [(wItem.unique_key, itF)] ∧
      itF.status = .failed ∧ itF.attempt_count = 3 ∧ itF.last_error = some "boom") ∧
    (get_next (failCycles "boom" 9 3 [(wItem.unique_key, wItem)]) none 9).next = none :=
  c4_fail_retry_exhaustion wItem "boom" 9 3 rfl rfl rfl (by omega)

/-! ## Claim C2 -/

theorem foldl_files (fs : Files) :
    ∀ acc : Store, fs.foldl (fun st file => file.2.foldl loadOne st) acc =
      (fs.flatMap Prod.snd).foldl loadOne acc := by
  induction fs with
  | nil => intro acc; rfl
  | cons f fs ih =>
    intro acc
    rw [List.foldl_cons, ih, List.flatMap_cons, List.foldl_append]

theorem load_queue_flatten (files : Files) :
    load_queue files = (files.flatMap Prod.snd).foldl loadOne [] :=
  foldl_files files []

theorem loadList_eq_filterMap :
    ∀ (L : List QueueItem) (st0 : Store),
      ((L.filter fun it =>
          it.status = .pending ∨ it.status = .in_progress).map
        QueueItem.unique_key).Nodup →
      (∀ it ∈ L, (it.status = .pending ∨ it.status = .in_progress) →
        it.unique_key ∉ st0.map Prod.fst) →
      L.foldl loadOne st0 = st0 ++ L.filterMap liveEntry
  | [], st0, _, _ => by simp
  | x :: L, st0, hnd, hdis => by
    by_cases hlive : x.status = .pending ∨ x.status = .in_progress
    · have hxnotin : x.unique_key ∉ st0.map Prod.fst :=
        hdis x (List.mem_cons_self _ _) hlive
      have hfind : st0.find? (fun e => e.1 = x.unique_key) = none := by
        rw [List.find?_eq_none]
        intro e he
        simp only [decide_eq_true_eq]
        intro hek
        exact hxnotin (List.mem_map.mpr ⟨e, he, hek⟩)
      have hstep : loadOne st0 x = st0 ++
          [(x.unique_key,
            if x.status = .in_progress then { x with status := .pending } else x)] := by
        simp [loadOne, hlive, dictInsert, hfind]
      have hfkeys : ((x :: L).filter fun it =>
          it.status = .pending ∨ it.status = .in_progress).map QueueItem.unique_key =
          x.unique_key :: ((L.filter fun it =>
            it.status = .pending ∨ it.status = .in_progress).map
              QueueItem.unique_key) := by
        rw [List.filter_cons, if_pos (by simpa using hlive)]
        rfl
      rw [hfkeys, List.nodup_cons] at hnd
      have hrest := loadList_eq_filterMap L
        (st0 ++ [(x.unique_key,
          if x.status = .in_progress then { x with status := .pending } else x)])
        hnd.2 ?hdis2
      case hdis2 =>
        intro it hit hitlive
        rw [List.map_append, List.mem_append]
        rintro (h1 | h2)
        · exact hdis it (List.mem_cons_of_mem _ hit) hitlive h1
        · have : it.unique_key = x.unique_key := by simpa using h2
          refine hnd.1 ?_
          rw [← this]
          exact List.mem_map.mpr ⟨it, List.mem_filter.mpr ⟨hit, by simpa using hitlive⟩, rfl⟩
      rw [List.foldl_cons, hstep, hrest, List.append_assoc]
      have : liveEntry x = some (x.unique_key,
          if x.status = .in_progress then { x with status := .pending } else x) := by
        simp [liveEntry, hlive]
      rw [List.filterMap_cons, this]
      rfl
    · have hstep : loadOne st0 x = st0 := by simp [loadOne, hlive]
      have hfkeys : ((x :: L).filter fun it =>
          it.status = .pending ∨ it.status = .in_progress) =
          (L.filter fun it => it.status = .pending ∨ it.status = .in_progress) := by
        rw [List.filter_cons, if_neg (by simpa using hlive)]
      rw [List.foldl_cons, hstep,
        loadList_eq_filterMap L st0 (by rw [← hfkeys]; exact hnd)
          (fun it hit hl => hdis it (List.mem_cons_of_mem _ hit) hl)]
      have : liveEntry x = none := by simp [liveEntry, hlive]
      rw [List.filterMap_cons, this]

theorem filter_provMatch_none (V : List QueueItem) : V.filter (provMatch none) = V := by
  induction V with
  | nil => rfl
  | cons x V ih => simp [List.filter_cons, provMatch, ih]

theorem flatMap_map_snd (V : List QueueItem) :
    ∀ ps : List String,
      ((ps.map fun p => (p, V.filter fun it =>
        it.fingerprint.provider = p)).flatMap Prod.snd) =
      ps.flatMap fun p => V.filter fun it => it.fingerprint.provider = p
  | [] => rfl
  | p :: ps => by
    simp only [List.map_cons, List.flatMap_cons]
    rw [flatMap_map_snd V ps]

/-- The items the unfiltered save writes, flattened across files:
a regrouping of the store's values. -/
theorem save_flatten_eq (st : Store) :
    (save_queue st none).flatMap Prod.snd =
      (firstDedup ((st.map Prod.snd).map fun it =>
        it.fingerprint.provider)).flatMap
        fun p => (st.map Prod.snd).filter fun it =>
          it.fingerprint.provider = p := by
  unfold save_queue
  rw [filter_provMatch_none]
  exact flatMap_map_snd _ _

theorem save_flatten_mem (st : Store) (x : QueueItem) :
    x ∈ (save_queue st none).flatMap Prod.snd ↔ x ∈ st.map Prod.snd := by
  rw [save_flatten_eq]
  constructor
  · intro hx
    obtain ⟨p, _, hmem⟩ := List.mem_flatMap.mp hx
    exact (List.mem_filter.mp hmem).1
  · intro hx
    refine List.mem_flatMap.mpr ⟨x.fingerprint.provider, ?_, ?_⟩
    · rw [mem_firstDedup]
      exact List.mem_map.mpr ⟨x, hx, rfl⟩
    · exact List.mem_filter.mpr ⟨hx, by simp⟩

theorem flat_nodup_aux (vals : List QueueItem)
    (h : (vals.map QueueItem.unique_key).Nodup) :
    ∀ ps : List String, ps.Nodup →
      ((ps.flatMap fun p => vals.filter fun it =>
        it.fingerprint.provider = p).map QueueItem.unique_key).Nodup := by
  intro ps
  induction ps with
  | nil => intro _; simp
  | cons p ps ih =>
    intro hps
    rw [List.nodup_cons] at hps
    rw [List.flatMap_cons, List.map_append]
    refine List.Nodup.append ?_ (ih hps.2) ?_
    · exact ((List.filter_sublist vals).map QueueItem.unique_key).nodup h
    · intro k hk1 hk2
      obtain ⟨a, ha, hak⟩ := List.mem_map.mp hk1
      obtain ⟨b, hb, hbk⟩ := List.mem_map.mp hk2
      obtain ⟨q, hq, hbq⟩ := List.mem_flatMap.mp hb
      have hamem := List.mem_filter.mp ha
      have hbmem := List.mem_filter.mp hbq
      have hab : a = b :=
        List.inj_on_of_nodup_map h hamem.1 hbmem.1 (hak.trans hbk.symm)
      have hpq : p = q := by
        have h1 : a.fingerprint.provider = p := by simpa using hamem.2
        have h2 : b.fingerprint.provider = q := by simpa using hbmem.2
        rw [← h1, hab, h2]
      exact hps.1 (hpq ▸ hq)

theorem store_vals_keys (st : Store) (h2 : ∀ e ∈ st, e.1 = e.2.unique_key) :
    (st.map Prod.snd).map QueueItem.unique_key = st.map Prod.fst := by
  rw [List.map_map]
  exact List.map_congr_left fun e he => (h2 e he).symm

theorem save_flatten_nodup (st : Store)
    (h : ((st.map Prod.snd).map QueueItem.unique_key).Nodup) :
    (((save_queue st none).flatMap Prod.snd).map QueueItem.unique_key).Nodup := by
  rw [save_flatten_eq]
  exact flat_nodup_aux _ h _ (nodup_firstDedup _)

theorem filterMap_live_keys :
    ∀ L : List QueueItem,
      (L.filterMap liveEntry).map Prod.fst =
        (L.filter fun it =>
          it.status = .pending ∨ it.status = .in_progress).map QueueItem.unique_key
  | [] => rfl
  | x :: L => by
    by_cases hlive : x.status = .pending ∨ x.status = .in_progress
    · have hc : decide (x.status = QueueItemStatus.pending ∨
          x.status = QueueItemStatus.in_progress) = true := by simpa using hlive
      simp only [List.filterMap_cons, List.filter_cons, hc,
        show liveEntry x = some (x.unique_key,
          if x.status = .in_progress then { x with status := .pending } else x) from by
            simp [liveEntry, hlive]]
      simp [filterMap_live_keys L]
    · have hc : decide (x.status = QueueItemStatus.pending ∨
          x.status = QueueItemStatus.in_progress) = false := by simpa using hlive
      simp only [List.filterMap_cons, List.filter_cons, hc,
        show liveEntry x = none from by simp [liveEntry, hlive]]
      simp [filterMap_live_keys L]

/-- Claim C2: saving any well-formed queue state and loading it into a
fresh queue reproduces exactly the live (PENDING / IN_PROGRESS) items —
same keys and all fields, with no duplicate keys; an IN_PROGRESS item comes
back PENDING with its `attempt_count` (and everything else) unchanged, and
COMPLETED / FAILED items are not restored. -/
theorem c2_save_load_roundtrip (st : Store)
    (h1 : (st.map Prod.fst).Nodup)
    (h2 : ∀ e ∈ st, e.1 = e.2.unique_key) :
    ((load_queue (save_queue st none)).map Prod.fst).Nodup ∧
    ∀ k, alookup (load_queue (save_queue st none)) k =
      (alookup st k).bind fun it =>
        if it.status = .pending then some it
        else if it.status = .in_progress then some { it with status := .pending }
        else none := by
  have hvk : ((st.map Prod.snd).map QueueItem.unique_key).Nodup := by
    rw [store_vals_keys st h2]; exact h1
  have hflatnd := save_flatten_nodup st hvk
  have hload : load_queue (save_queue st none) =
      ((save_queue st none).flatMap Prod.snd).filterMap liveEntry := by
    rw [load_queue_flatten]
    have := loadList_eq_filterMap ((save_queue st none).flatMap Prod.snd) []
      (((List.filter_sublist _).map QueueItem.unique_key).nodup hflatnd)
      (by intro it _ _; simp)
    simpa using this
  have hndkeys : ((load_queue (save_queue st none)).map Prod.fst).Nodup := by
    rw [hload, filterMap_live_keys]
    exact ((List.filter_sublist _).map QueueItem.unique_key).nodup hflatnd
  refine ⟨hndkeys, ?_⟩
  intro k
  cases hlk : alookup st k with
  | some it =>
    have hmem : (k, it) ∈ st := (alookup_eq_some_iff h1).mp hlk
    have hkey : k = it.unique_key := h2 (k, it) hmem
    by_cases hlive : it.status = .pending ∨ it.status = .in_progress
    · have hentry : liveEntry it = some (k,
          if it.status = .in_progress then { it with status := .pending } else it) := by
        simp [liveEntry, hlive, ← hkey]
      have hinflat : it ∈ (save_queue st none).flatMap Prod.snd :=
        (save_flatten_mem st it).mpr (List.mem_map.mpr ⟨(k, it), hmem, rfl⟩)
      have hmem2 : (k, if it.status = .in_progress then
          { it with status := .pending } else it) ∈
          load_queue (save_queue st none) := by
        rw [hload]
        exact List.mem_filterMap.mpr ⟨it, hinflat, hentry⟩
      rw [(alookup_eq_some_iff hndkeys).mpr hmem2]
      rcases hlive with hp | hip
      · simp [hp]
      · simp [hip]
    · have hrhs : ((some it).bind fun it =>
          if it.status = .pending then some it
          else if it.status = .in_progress then some { it with status := .pending }
          else none) = none := by
        have hnp : it.status ≠ .pending := fun h => hlive (Or.inl h)
        have hni : it.status ≠ .in_progress := fun h => hlive (Or.inr h)
        simp [hnp, hni]
      rw [hrhs]
      cases hlk2 : alookup (load_queue (save_queue st none)) k with
      | none => rfl
      | some v =>
        exfalso
        have hmem2 := (alookup_eq_some_iff hndkeys).mp hlk2
        rw [hload] at hmem2
        obtain ⟨a, haflat, hae⟩ := List.mem_filterMap.mp hmem2
        have halive : a.status = .pending ∨ a.status = .in_progress := by
          by_contra hn
          simp [liveEntry, hn] at hae
        have hak : a.unique_key = k := by
          simp only [liveEntry, if_pos halive] at hae
          exact congrArg Prod.fst (Option.some.inj hae)
        have hamem : a ∈ st.map Prod.snd := (save_flatten_mem st a).mp haflat
        obtain ⟨e, he, hea⟩ := List.mem_map.mp hamem
        have heqk : e = (k, a) := by
          have : e.1 = a.unique_key := by rw [h2 e he, hea]
          rw [Prod.ext_iff]
          exact ⟨this.trans hak, hea⟩
        have : e = (k, it) :=
          List.inj_on_of_nodup_map h1 he hmem (by rw [heqk])
        have hit : a = it := by
          rw [heqk] at this
          exact congrArg Prod.snd this
        rw [hit] at halive
        exact hlive halive
  | none =>
    cases hlk2 : alookup (load_queue (save_queue st none)) k with
    | none => rfl
    | some v =>
      exfalso
      have hmem2 := (alookup_eq_some_iff hndkeys).mp hlk2
      rw [hload] at hmem2
      obtain ⟨a, haflat, hae⟩ := List.mem_filterMap.mp hmem2
      have halive : a.status = .pending ∨ a.status = .in_progress := by
        by_contra hn
        simp [liveEntry, hn] at hae
      have hak : a.unique_key = k := by
        simp only [liveEntry, if_pos halive] at hae
        exact congrArg Prod.fst (Option.some.inj hae)
      have hamem : a ∈ st.map Prod.snd := (save_flatten_mem st a).mp haflat
      obtain ⟨e, he, hea⟩ := List.mem_map.mp hamem
      have : e.1 ≠ k := alookup_eq_none_iff.mp hlk e he
      exact this (by rw [h2 e he, hea, hak])

/-- Claim C2, witness: the two-provider mixed store (an IN_PROGRESS item
with two attempts and a FAILED one) round-trips to exactly the demoted
IN_PROGRESS item. -/
theorem c2_save_load_roundtrip_witness :
    ((load_queue (save_queue wStoreMixed none)).map Prod.fst).Nodup ∧
    ∀ k, alookup (load_queue (save_queue wStoreMixed none)) k =
      (alookup wStoreMixed k).bind fun it =>
        if it.status = .pending then some it
        else if it.status = .in_progress then some { it with status := .pending }
        else none :=
  c2_save_load_roundtrip wStoreMixed (by decide) (by decide)

/-! ## Claim C3 -/

set_option maxRecDepth 100000

/-- Claim C3, evaluation at the failing input: a cached entry for the same
vehicle (equal fingerprint hash) whose `scraped_at` is missing — or is a
string `fromisoformat` rejects — is classified UNCHANGED by
`detect_changes`, not stale, and is absent from `needs_scraping`; the
truthiness test `scraped_at and (now - scraped_at) > threshold` falls
through to the unchanged branch.  The spec requires such an entry to be
treated as maximally stale. -/
theorem c3_unparsable_timestamp_eval :
    (detect_changes [wVehicle] "toyota_nl" none
        [(wFP.unique_key, ⟨wFP, .missing⟩)] 604800 1000000 =
      { provider := "toyota_nl", detected_at := 1000000,
        unchanged_vehicles := [wFP] }) ∧
    (detect_changes [wVehicle] "toyota_nl" none
        [(wFP.unique_key, ⟨wFP, .strUnparsable⟩)] 604800 1000000 =
      { provider := "toyota_nl", detected_at := 1000000,
        unchanged_vehicles := [wFP] }) ∧
    (detect_changes [wVehicle] "toyota_nl" none
        [(wFP.unique_key, ⟨wFP, .missing⟩)] 604800 1000000).needs_scraping = [] := by
  exact ⟨rfl, rfl, rfl⟩

/-! ## Claim C8 -/

theorem clookup_mem {cache : Cache} {k : String} {e : CacheEntry}
    (h : clookup cache k = some e) : ∃ q ∈ cache, q.2 = e := by
  unfold clookup at h
  cases hfind : cache.find? (fun q => q.1 = k) with
  | none => rw [hfind] at h; exact absurd h (by simp)
  | some q =>
    rw [hfind] at h
    exact ⟨q, List.mem_of_find?_eq_some hfind, by simpa using h⟩

theorem categorize_time_congr (cache : Cache) (thr t1 t2 : Int)
    (fp : VehicleFingerprint)
    (h : ∀ q ∈ cache, staleAt thr t1 q.2 = staleAt thr t2 q.2) :
    categorize cache thr t1 fp = categorize cache thr t2 fp := by
  cases hc : clookup cache fp.unique_key with
  | none => unfold categorize; rw [hc]
  | some entry =>
    obtain ⟨q, hq, hqe⟩ := clookup_mem hc
    have hst : staleAt thr t1 entry = staleAt thr t2 entry := hqe ▸ h q hq
    unfold categorize
    rw [hc]
    simp only [hst]

/-- The buckets of one key-categorization fold agree at two instants that
classify every cached entry's staleness alike; `detected_at` rides along
untouched. -/
theorem detect_fold_congr (cache : Cache) (thr t1 t2 : Int)
    (lastFP : String → Option VehicleFingerprint)
    (h : ∀ q ∈ cache, staleAt thr t1 q.2 = staleAt thr t2 q.2) :
    ∀ (keys : List String) (r1 r2 : ChangeDetectionResult),
      r1.new_vehicles = r2.new_vehicles →
      r1.changed_vehicles = r2.changed_vehicles →
      r1.stale_vehicles = r2.stale_vehicles →
      r1.removed_vehicles = r2.removed_vehicles →
      r1.unchanged_vehicles = r2.unchanged_vehicles →
      ((keys.foldl (fun r k =>
          match lastFP k with
          | none => r
          | some fp => pushBucket r fp (categorize cache thr t1 fp)) r1).new_vehicles =
        (keys.foldl (fun r k =>
          match lastFP k with
          | none => r
          | some fp => pushBucket r fp (categorize cache thr t2 fp)) r2).new_vehicles) ∧
      ((keys.foldl (fun r k =>
          match lastFP k with
          | none => r
          | some fp => pushBucket r fp (categorize cache thr t1 fp)) r1).changed_vehicles =
        (keys.foldl (fun r k =>
          match lastFP k with
          | none => r
          | some fp => pushBucket r fp (categorize cache thr t2 fp)) r2).changed_vehicles) ∧
      ((keys.foldl (fun r k =>
          match lastFP k with
          | none => r
          | some fp => pushBucket r fp (categorize cache thr t1 fp)) r1).stale_vehicles =
        (keys.foldl (fun r k =>
          match lastFP k with
          | none => r
          | some fp => pushBucket r fp (categorize cache thr t2 fp)) r2).stale_vehicles) ∧
      ((keys.foldl (fun r k =>
          match lastFP k with
          | none => r
          | some fp => pushBucket r fp (categorize cache thr t1 fp)) r1).removed_vehicles =
        (keys.foldl (fun r k =>
          match lastFP k with
          | none => r
          | some fp => pushBucket r fp (categorize cache thr t2 fp)) r2).removed_vehicles) ∧
      ((keys.foldl (fun r k =>
          match lastFP k with
          | none => r
          | some fp => pushBucket r fp (categorize cache thr t1 fp)) r1).unchanged_vehicles =
        (keys.foldl (fun r k =>
          match lastFP k with
          | none => r
          | some fp => pushBucket r fp (categorize cache thr t2 fp)) r2).unchanged_vehicles)
  | [], r1, r2, hn, hc, hs, hr, hu => ⟨hn, hc, hs, hr, hu⟩
  | k :: keys, r1, r2, hn, hc, hs, hr, hu => by
    simp only [List.foldl_cons]
    cases hl : lastFP k with
    | none => exact detect_fold_congr cache thr t1 t2 lastFP h keys r1 r2 hn hc hs hr hu
    | some fp =>
      have hcat := categorize_time_congr cache thr t1 t2 fp h
      exact detect_fold_congr cache thr t1 t2 lastFP h keys
        (pushBucket r1 fp (categorize cache thr t1 fp))
        (pushBucket r2 fp (categorize cache thr t2 fp))
        (by rw [hcat]; cases categorize cache thr t2 fp <;>
          simp [pushBucket, hn, hc, hs, hr, hu])
        (by rw [hcat]; cases categorize cache thr t2 fp <;>
          simp [pushBucket, hn, hc, hs, hr, hu])
        (by rw [hcat]; cases categorize cache thr t2 fp <;>
          simp [pushBucket, hn, hc, hs, hr, hu])
        (by rw [hcat]; cases categorize cache thr t2 fp <;>
          simp [pushBucket, hn, hc, hs, hr, hu])
        (by rw [hcat]; cases categorize cache thr t2 fp <;>
          simp [pushBucket, hn, hc, hs, hr, hu])

/-- The key-categorization fold never touches `detected_at` or
`provider`. -/
theorem detect_fold_frame (cache : Cache) (thr t : Int)
    (lastFP : String → Option VehicleFingerprint) :
    ∀ (keys : List String) (r : ChangeDetectionResult),
      ((keys.foldl (fun r k =>
          match lastFP k with
          | none => r
          | some fp => pushBucket r fp (categorize cache thr t fp)) r).detected_at =
        r.detected_at) ∧
      ((keys.foldl (fun r k =>
          match lastFP k with
          | none => r
          | some fp => pushBucket r fp (categorize cache thr t fp)) r).provider =
        r.provider)
  | [], r => ⟨rfl, rfl⟩
  | k :: keys, r => by
    simp only [List.foldl_cons]
    cases hl : lastFP k with
    | none => exact detect_fold_frame cache thr t lastFP keys r
    | some fp =>
      have hrec := detect_fold_frame cache thr t lastFP keys
        (pushBucket r fp (categorize cache thr t fp))
      have hpush : (pushBucket r fp (categorize cache thr t fp)).detected_at =
          r.detected_at ∧
          (pushBucket r fp (categorize cache thr t fp)).provider = r.provider := by
        cases categorize cache thr t fp <;> exact ⟨rfl, rfl⟩
      exact ⟨hrec.1.trans hpush.1, hrec.2.trans hpush.2⟩

/-- The removed-vehicles fold yields equal buckets from accumulators with
equal buckets, and never touches `detected_at` or `provider`. -/
theorem removed_fold_congr (brand : Option String) (keys : List String) :
    ∀ (c : Cache) (r1 r2 : ChangeDetectionResult),
      r1.new_vehicles = r2.new_vehicles →
      r1.changed_vehicles = r2.changed_vehicles →
      r1.stale_vehicles = r2.stale_vehicles →
      r1.removed_vehicles = r2.removed_vehicles →
      r1.unchanged_vehicles = r2.unchanged_vehicles →
      ((c.foldl (fun r e =>
          if e.1 ∉ keys ∧ brandKeepFP brand e.2.fingerprint then
            { r with removed_vehicles := r.removed_vehicles ++ [e.2.fingerprint] }
          else r) r1).new_vehicles =
        (c.foldl (fun r e =>
          if e.1 ∉ keys ∧ brandKeepFP brand e.2.fingerprint then
            { r with removed_vehicles := r.removed_vehicles ++ [e.2.fingerprint] }
          else r) r2).new_vehicles) ∧
      ((c.foldl (fun r e =>
          if e.1 ∉ keys ∧ brandKeepFP brand e.2.fingerprint then
            { r with removed_vehicles := r.removed_vehicles ++ [e.2.fingerprint] }
          else r) r1).changed_vehicles =
        (c.foldl (fun r e =>
          if e.1 ∉ keys ∧ brandKeepFP brand e.2.fingerprint then
            { r with removed_vehicles := r.removed_vehicles ++ [e.2.fingerprint] }
          else r) r2).changed_vehicles) ∧
      ((c.foldl (fun r e =>
          if e.1 ∉ keys ∧ brandKeepFP brand e.2.fingerprint then
            { r with removed_vehicles := r.removed_vehicles ++ [e.2.fingerprint] }
          else r) r1).stale_vehicles =
        (c.foldl (fun r e =>
          if e.1 ∉ keys ∧ brandKeepFP brand e.2.fingerprint then
            { r with removed_vehicles := r.removed_vehicles ++ [e.2.fingerprint] }
          else r) r2).stale_vehicles) ∧
      ((c.foldl (fun r e =>
          if e.1 ∉ keys ∧ brandKeepFP brand e.2.fingerprint then
            { r with removed_vehicles := r.removed_vehicles ++ [e.2.fingerprint] }
          else r) r1).removed_vehicles =
        (c.foldl (fun r e =>
          if e.1 ∉ keys ∧ brandKeepFP brand e.2.fingerprint then
            { r with removed_vehicles := r.removed_vehicles ++ [e.2.fingerprint] }
          else r) r2).removed_vehicles) ∧
      ((c.foldl (fun r e =>
          if e.1 ∉ keys ∧ brandKeepFP brand e.2.fingerprint then
            { r with removed_vehicles := r.removed_vehicles ++ [e.2.fingerprint] }
          else r) r1).unchanged_vehicles =
        (c.foldl (fun r e =>
          if e.1 ∉ keys ∧ brandKeepFP brand e.2.fingerprint then
            { r with removed_vehicles := r.removed_vehicles ++ [e.2.fingerprint] }
          else r) r2).unchanged_vehicles) ∧
      ((c.foldl (fun r e =>
          if e.1 ∉ keys ∧ brandKeepFP brand e.2.fingerprint then
            { r with removed_vehicles := r.removed_vehicles ++ [e.2.fingerprint] }
          else r) r1).detected_at = r1.detected_at) ∧
      ((c.foldl (fun r e =>
          if e.1 ∉ keys ∧ brandKeepFP brand e.2.fingerprint then
            { r with removed_vehicles := r.removed_vehicles ++ [e.2.fingerprint] }
          else r) r1).provider = r1.provider)
  | [], r1, r2, hn, hc, hs, hr, hu => ⟨hn, hc, hs, hr, hu, rfl, rfl⟩
  | e :: c, r1, r2, hn, hc, hs, hr, hu => by
    simp only [List.foldl_cons]
    by_cases hcond : e.1 ∉ keys ∧ brandKeepFP brand e.2.fingerprint
    · rw [if_pos hcond, if_pos hcond]
      exact removed_fold_congr brand keys c _ _ hn hc hs (by simp [hr]) hu
    · rw [if_neg hcond, if_neg hcond]
      exact removed_fold_congr brand keys c r1 r2 hn hc hs hr hu

/-- Claim C8 (amended): `detect_changes` is a pure function of its inputs
and the clock reading: two calls whose instants classify every cached
entry's staleness alike produce identical five buckets (and the same
provider); `detected_at`, however, records each call's own instant, so the
full results coincide only when the instants do. -/
theorem c8_amended (overview : List PyDict) (provider : String)
    (brand : Option String) (cache : Cache) (thr t1 t2 : Int)
    (h : ∀ q ∈ cache, staleAt thr t1 q.2 = staleAt thr t2 q.2) :
    (detect_changes overview provider brand cache thr t1).new_vehicles =
      (detect_changes overview provider brand cache thr t2).new_vehicles ∧
    (detect_changes overview provider brand cache thr t1).changed_vehicles =
      (detect_changes overview provider brand cache thr t2).changed_vehicles ∧
    (detect_changes overview provider brand cache thr t1).stale_vehicles =
      (detect_changes overview provider brand cache thr t2).stale_vehicles ∧
    (detect_changes overview provider brand cache thr t1).removed_vehicles =
      (detect_changes overview provider brand cache thr t2).removed_vehicles ∧
    (detect_changes overview provider brand cache thr t1).unchanged_vehicles =
      (detect_changes overview provider brand cache thr t2).unchanged_vehicles ∧
    (detect_changes overview provider brand cache thr t1).provider =
      (detect_changes overview provider brand cache thr t2).provider ∧
    (detect_changes overview provider brand cache thr t1).detected_at = t1 ∧
    (detect_changes overview provider brand cache thr t2).detected_at = t2 := by
  obtain ⟨hn, hc, hs, hr, hu⟩ := detect_fold_congr cache thr t1 t2
    (fun k => ((overview.filter (brandKeep brand)).map
      (from_vehicle_dict · provider)).reverse.find? fun fp => fp.unique_key = k) h
    (firstDedup (((overview.filter (brandKeep brand)).map
      (from_vehicle_dict · provider)).map (fun fp => fp.unique_key)))
    { provider := provider, detected_at := t1 }
    { provider := provider, detected_at := t2 }
    rfl rfl rfl rfl rfl
  obtain ⟨gn, gc, gs, gr, gu, gd1, gp1⟩ := removed_fold_congr brand
    (firstDedup (((overview.filter (brandKeep brand)).map
      (from_vehicle_dict · provider)).map (fun fp => fp.unique_key)))
    cache _ _ hn hc hs hr hu
  obtain ⟨_, _, _, _, _, gd2, gp2⟩ := removed_fold_congr brand
    (firstDedup (((overview.filter (brandKeep brand)).map
      (from_vehicle_dict · provider)).map (fun fp => fp.unique_key)))
    cache _ _ hn.symm hc.symm hs.symm hr.symm hu.symm
  have hf1 := detect_fold_frame cache thr t1
    (fun k => ((overview.filter (brandKeep brand)).map
      (from_vehicle_dict · provider)).reverse.find? fun fp => fp.unique_key = k)
    (firstDedup (((overview.filter (brandKeep brand)).map
      (from_vehicle_dict · provider)).map (fun fp => fp.unique_key)))
    { provider := provider, detected_at := t1 }
  have hf2 := detect_fold_frame cache thr t2
    (fun k => ((overview.filter (brandKeep brand)).map
      (from_vehicle_dict · provider)).reverse.find? fun fp => fp.unique_key = k)
    (firstDedup (((overview.filter (brandKeep brand)).map
      (from_vehicle_dict · provider)).map (fun fp => fp.unique_key)))
    { provider := provider, detected_at := t2 }
  exact ⟨gn, gc, gs, gr, gu,
    (gp1.trans hf1.2).trans ((gp2.trans hf2.2)).symm,
    gd1.trans hf1.1, gd2.trans hf2.1⟩

/-- Claim C8, counterexample: with a cached entry scraped at instant 0 and a
7-day freshness window, the same overview, provider, brand filter and cache
give UNCHANGED at day 5 but STALE at day 10 — and the `detected_at` field
records each call's own time — so two calls with the same inputs are not
identical results. -/
theorem c8_counterexample :
    (detect_changes [wVehicle] "toyota_nl" none wCacheParsed
      604800 432000).unchanged_vehicles = [wFP] ∧
    (detect_changes [wVehicle] "toyota_nl" none wCacheParsed
      604800 432000).stale_vehicles = [] ∧
    (detect_changes [wVehicle] "toyota_nl" none wCacheParsed
      604800 864000).stale_vehicles = [wFP] ∧
    (detect_changes [wVehicle] "toyota_nl" none wCacheParsed
      604800 864000).unchanged_vehicles = [] ∧
    (detect_changes [wVehicle] "toyota_nl" none wCacheParsed
      604800 432000).detected_at = 432000 ∧
    (detect_changes [wVehicle] "toyota_nl" none wCacheParsed
      604800 864000).detected_at = 864000 := by
  exact ⟨rfl, rfl, rfl, rfl, rfl, rfl⟩

/-- Claim C8, witness: at instants 0 and 86400 every entry of the one-entry
missing-timestamp cache classifies alike, so the buckets coincide while
each `detected_at` is its call's instant. -/
theorem c8_amended_witness :
    (detect_changes [wVehicle] "toyota_nl" none
      [(wFP.unique_key, ⟨wFP, .missing⟩)] 604800 0).new_vehicles =
      (detect_changes [wVehicle] "toyota_nl" none
        [(wFP.unique_key, ⟨wFP, .missing⟩)] 604800 86400).new_vehicles ∧
    (detect_changes [wVehicle] "toyota_nl" none
      [(wFP.unique_key, ⟨wFP, .missing⟩)] 604800 0).changed_vehicles =
      (detect_changes [wVehicle] "toyota_nl" none
        [(wFP.unique_key, ⟨wFP, .missing⟩)] 604800 86400).changed_vehicles ∧
    (detect_changes [wVehicle] "toyota_nl" none
      [(wFP.unique_key, ⟨wFP, .missing⟩)] 604800 0).stale_vehicles =
      (detect_changes [wVehicle] "toyota_nl" none
        [(wFP.unique_key, ⟨wFP, .missing⟩)] 604800 86400).stale_vehicles ∧
    (detect_changes [wVehicle] "toyota_nl" none
      [(wFP.unique_key, ⟨wFP, .missing⟩)] 604800 0).removed_vehicles =
      (detect_changes [wVehicle] "toyota_nl" none
        [(wFP.unique_key, ⟨wFP, .missing⟩)] 604800 86400).removed_vehicles ∧
    (detect_changes [wVehicle] "toyota_nl" none
      [(wFP.unique_key, ⟨wFP, .missing⟩)] 604800 0).unchanged_vehicles =
      (detect_changes [wVehicle] "toyota_nl" none
        [(wFP.unique_key, ⟨wFP, .missing⟩)] 604800 86400).unchanged_vehicles ∧
    (detect_changes [wVehicle] "toyota_nl" none
      [(wFP.unique_key, ⟨wFP, .missing⟩)] 604800 0).provider =
      (detect_changes [wVehicle] "toyota_nl" none
        [(wFP.unique_key, ⟨wFP, .missing⟩)] 604800 86400).provider ∧
    (detect_changes [wVehicle] "toyota_nl" none
      [(wFP.unique_key, ⟨wFP, .missing⟩)] 604800 0).detected_at = 0 ∧
    (detect_changes [wVehicle] "toyota_nl" none
      [(wFP.unique_key, ⟨wFP, .missing⟩)] 604800 86400).detected_at = 86400 :=
  c8_amended [wVehicle] "toyota_nl" none
    [(wFP.unique_key, ⟨wFP, .missing⟩)] 604800 0 86400 (by decide)

/-! ## Claim C7 -/

theorem char_toNat_lt (c : Char) : c.toNat < 1114112 := by
  rcases c.valid with h | h
  · exact lt_trans h (by norm_num)
  · exact h.2

theorem encode_foldr_lt :
    ∀ l : List Char,
      l.foldr (fun c acc => acc * 1114113 + (c.toNat + 1)) 0 < 1114113 ^ l.length
  | [] => by simp
  | c :: l => by
    have ih := encode_foldr_lt l
    have hd : c.toNat + 1 ≤ 1114112 := by
      have := char_toNat_lt c
      omega
    have h2 : (l.foldr (fun c acc => acc * 1114113 + (c.toNat + 1)) 0 + 1) *
        1114113 ≤ 1114113 ^ l.length * 1114113 :=
      Nat.mul_le_mul_right _ ih
    simp only [List.foldr_cons, List.length_cons, pow_succ]
    omega

theorem encode_foldr_inj :
    ∀ l1 l2 : List Char,
      l1.foldr (fun c acc => acc * 1114113 + (c.toNat + 1)) 0 =
        l2.foldr (fun c acc => acc * 1114113 + (c.toNat + 1)) 0 →
      l1 = l2
  | [], [] => fun _ => rfl
  | [], c :: l => by
    intro h
    exfalso
    simp only [List.foldr_nil, List.foldr_cons] at h
    omega
  | c :: l, [] => by
    intro h
    exfalso
    simp only [List.foldr_nil, List.foldr_cons] at h
    omega
  | c1 :: l1, c2 :: l2 => by
    intro h
    simp only [List.foldr_cons] at h
    have hd1 : c1.toNat + 1 < 1114113 := by
      have := char_toNat_lt c1
      omega
    have hd2 : c2.toNat + 1 < 1114113 := by
      have := char_toNat_lt c2
      omega
    have hds : c1.toNat = c2.toNat := by omega
    have hes : l1.foldr (fun c acc => acc * 1114113 + (c.toNat + 1)) 0 =
        l2.foldr (fun c acc => acc * 1114113 + (c.toNat + 1)) 0 := by omega
    have hc : c1 = c2 := by
      apply Char.ext
      have : c1.val.toNat = c2.val.toNat := hds
      exact UInt32.toNat.inj this
    rw [hc, encode_foldr_inj l1 l2 hes]

theorem encodeStr_inj (s1 s2 : String) (h : encodeStr s1 = encodeStr s2) :
    s1 = s2 := by
  cases s1
  cases s2
  exact congrArg String.mk (encode_foldr_inj _ _ h)

/-- The truncated digest is at most 12 characters long. -/
theorem fingerprint_hash_len_le (fp : VehicleFingerprint) :
    fp.fingerprint_hash.data.length ≤ 12 := by
  unfold VehicleFingerprint.fingerprint_hash
  rw [String.data_take, List.length_take]
  exact min_le_left _ _

/-- Pigeonhole over bounded-length strings: no function from the naturals
into strings of at most 12 characters is injective. -/
theorem pigeonhole_strings (F : Nat → String) (hF : ∀ n, (F n).data.length ≤ 12) :
    ∃ a b : Nat, a ≠ b ∧ F a = F b := by
  obtain ⟨a, b, hab, hfeq⟩ := Finite.exists_ne_map_eq_of_infinite
    (fun n : Nat => (⟨encodeStr (F n),
      lt_of_lt_of_le (encode_foldr_lt _)
        (Nat.pow_le_pow_right (by norm_num) (hF n))⟩ : Fin (1114113 ^ 12)))
  exact ⟨a, b, hab, encodeStr_inj _ _ (congrArg Fin.val hfeq)⟩

/-- Claim C7, counterexample (to the second half of the claim): the hash is
truncated to 12 hex characters, so by pigeonhole two fingerprints exist
with the same `unique_key`, `url` and attribute keys but different
attribute values and EQUAL `fingerprint_hash` — changing an attribute value
does not always change the hash. -/
theorem c7_counterexample :
    ∃ fp1 fp2 : VehicleFingerprint,
      fp1.unique_key = fp2.unique_key ∧
      fp1.url = fp2.url ∧
      fp1.extra_attributes.map Prod.fst = fp2.extra_attributes.map Prod.fst ∧
      fp1.extra_attributes ≠ fp2.extra_attributes ∧
      fp1.fingerprint_hash = fp2.fingerprint_hash := by
  obtain ⟨a, b, hab, hhash⟩ := pigeonhole_strings
    (fun n => (fpN n).fingerprint_hash) (fun n => fingerprint_hash_len_le (fpN n))
  refine ⟨fpN a, fpN b, rfl, rfl, rfl, ?_, hhash⟩
  intro hex
  apply hab
  simp only [fpN, List.cons.injEq, Prod.mk.injEq, JValue.num.injEq,
    Nat.cast_inj, and_true, true_and] at hex
  exact hex

theorem dumpsPairs_eq_map :
    ∀ l : List (String × JValue),
      dumpsPairs l = l.map fun kv => (kv.1, dumps kv.2)
  | [] => rfl
  | (k, v) :: l => by
    simp only [dumpsPairs, List.map_cons]
    rw [dumpsPairs_eq_map l]

theorem sortPairs_eq_of_perm (l1 l2 : List (String × String))
    (hp : l1.Perm l2) (hnd : (l1.map Prod.fst).Nodup) :
    sortPairs l1 = sortPairs l2 := by
  have hs1 : List.Sorted pairLe (sortPairs l1) := List.sorted_insertionSort pairLe l1
  have hs2 : List.Sorted pairLe (sortPairs l2) := List.sorted_insertionSort pairLe l2
  have hperm : (sortPairs l1).Perm (sortPairs l2) :=
    (List.perm_insertionSort pairLe l1).trans
      (hp.trans (List.perm_insertionSort pairLe l2).symm)
  have hnd1 : ((sortPairs l1).map Prod.fst).Nodup :=
    (((List.perm_insertionSort pairLe l1).map Prod.fst).nodup_iff).mpr hnd
  have hnd2 : ((sortPairs l2).map Prod.fst).Nodup := by
    have hnd2a : (l2.map Prod.fst).Nodup := ((hp.map Prod.fst).nodup_iff).mp hnd
    exact (((List.perm_insertionSort pairLe l2).map Prod.fst).nodup_iff).mpr hnd2a
  have hlt1 : List.Sorted pairLt (sortPairs l1) :=
    ((List.pairwise_map.mp hnd1).and hs1).imp
      fun h => lt_of_le_of_ne h.2 h.1
  have hlt2 : List.Sorted pairLt (sortPairs l2) :=
    ((List.pairwise_map.mp hnd2).and hs2).imp
      fun h => lt_of_le_of_ne h.2 h.1
  exact List.eq_of_perm_of_sorted hperm hlt1 hlt2

theorem dumps_obj_congr (l1 l2 : List (String × JValue))
    (h : sortPairs (dumpsPairs l1) = sortPairs (dumpsPairs l2)) :
    dumps (.obj l1) = dumps (.obj l2) := by
  simp only [dumps]
  rw [h]

/-- Claim C7 (amended): `fingerprint_hash` is a pure function of
`{unique_key, url, extra_attributes}` and is insertion-order independent:
fingerprints with equal key and URL whose attribute maps hold the same
key-value pairs in any order (keys unique, as in a dict) hash alike.  The
truncated digest, however, cannot be injective in the attribute values. -/
theorem c7_amended (fp1 fp2 : VehicleFingerprint)
    (hk : fp1.unique_key = fp2.unique_key) (hu : fp1.url = fp2.url)
    (hperm : fp1.extra_attributes.Perm fp2.extra_attributes)
    (hnd : (fp1.extra_attributes.map Prod.fst).Nodup) :
    fp1.fingerprint_hash = fp2.fingerprint_hash := by
  unfold VehicleFingerprint.fingerprint_hash
  have hinput : fp1.hashInput = fp2.hashInput := by
    unfold VehicleFingerprint.hashInput
    rw [hk, hu]
    have hd : dumps (.obj fp1.extra_attributes) =
        dumps (.obj fp2.extra_attributes) := by
      apply dumps_obj_congr
      apply sortPairs_eq_of_perm
      · rw [dumpsPairs_eq_map, dumpsPairs_eq_map]
        exact hperm.map _
      · rw [dumpsPairs_eq_map]
        simpa [List.map_map, Function.comp] using hnd
    rw [hd]
  rw [hinput]

/-- Claim C7, witness: swapping the insertion order of the two extra
attributes leaves the hash unchanged. -/
theorem c7_amended_witness :
    (⟨"p", "b", "m", "e", "v", "u", [("a", .num 1), ("b", .str "z")]⟩ :
      VehicleFingerprint).fingerprint_hash =
    (⟨"p", "b", "m", "e", "v", "u", [("b", .str "z"), ("a", .num 1)]⟩ :
      VehicleFingerprint).fingerprint_hash :=
  c7_amended _ _ rfl rfl (List.Perm.swap _ _ _) (by decide)

end TAC
